import Mathlib

/-!
Verification development for the `SurfaceManager` of
`packages/phasor/src/surface.ts` (artisan-block-editor).

The manager's state is shallowly embedded: the replicated store
(`Y.Map<Y.Map<unknown>>`) and the local element cache (`Map<string,
SurfaceElement>`) become insertion-ordered association lists, the binding
graph (`Map<string, Set<string>>`) becomes an association list of
duplicate-free lists, and change-notification batches become lists of
`(id, action)` entries processed by an `Except`-valued fold (a thrown
`assertExists` aborts the handler, as an exception aborts `forEach`).

JavaScript string comparison (`<`, `>` on order keys) is embedded as
code-unit lexicographic comparison `jsLt` on the character data.
-/

namespace ArtisanSurface

/-- JS `<` on strings as lists of code units: lexicographic, comparing
code units by code point (sufficient for the BMP characters that order
keys use). -/
def jsLtChars : List Char → List Char → Bool
  | [], [] => false
  | [], _ :: _ => true
  | _ :: _, [] => false
  | a :: as, b :: bs =>
      if a.toNat < b.toNat then true
      else if b.toNat < a.toNat then false
      else jsLtChars as bs

/-- JS string comparison `a < b` (used by the source as `a > b` ⇔ `jsLt b a`). -/
def jsLt (a b : String) : Bool := jsLtChars a.data b.data

/-- Non-strict companion of `jsLt`: `a ≤ b` ⇔ `¬ (b < a)`. -/
def jsLe (a b : String) : Bool := ! jsLt b a

/-- `Map.get(k)` on an insertion-ordered association list. -/
def assocGet {α : Type} : List (String × α) → String → Option α
  | [], _ => none
  | (k', v) :: rest, k => if k' = k then some v else assocGet rest k

/-- `Map.set(k, v)`: update in place if present, else append. -/
def assocSet {α : Type} (l : List (String × α)) (k : String) (v : α) :
    List (String × α) :=
  if l.any (fun p => p.1 = k) then
    l.map (fun p => if p.1 = k then (k, v) else p)
  else l ++ [(k, v)]

/-- `Map.has(k)`. -/
def assocHas {α : Type} (l : List (String × α)) (k : String) : Bool :=
  l.any (fun p => p.1 = k)

/-- `Map.delete(k)`: remove the entry for `k`. -/
def assocDelete {α : Type} (l : List (String × α)) (k : String) :
    List (String × α) :=
  l.filter (fun p => ¬ p.1 = k)

/-- `Set.add(x)` on an insertion-ordered duplicate-free list. -/
def setAdd (s : List String) (x : String) : List String :=
  if s.contains x then s else s ++ [x]

/-- One stored element record / its cached wrapper.  The wrapper
(`SurfaceElement`) is modelled by the record fields it exposes: `id`,
`index` (order key), the type tag, the random `seed`, and — for
`ConnectorElement` — the resolved endpoint ids `startElement` /
`endElement` (`none` for plain elements).  Mount/unmount touch only the
external renderer and are dropped. -/
structure PhasorRecord where
  id : String
  rtype : String
  index : String
  seed : Int
  startElement : Option String
  endElement : Option String
deriving DecidableEq, Repr

/-- The replicated container: element id → record. -/
abbrev Store := List (String × PhasorRecord)

/-- `SurfaceManager`'s owned state: the replicated container mirror, the
element cache `_elements`, the binding graph `_bindings`, and the order
bounds `indexes = \x7b min, max \x7d`. -/
structure SurfaceState where
  yContainer : Store
  elements : List (String × PhasorRecord)
  bindings : List (String × List String)
  minIdx : String
  maxIdx : String
deriving DecidableEq, Repr

/-- `ElementCtors[type]` has exactly the registered type tags; a record is
constructible iff its tag is registered (`assertExists(ElementCtor)`).
Modelled from the spec: the Element Factory/Registry ("maps a type tag to a
constructor"); the registry module is not part of the sources, so the tag
set is representative, with `"connector"` selecting `ConnectorElement`. -/
def knownType (t : String) : Bool :=
  t = "shape" || t = "brush" || t = "connector" || t = "debug"

/-- `element instanceof ConnectorElement`. -/
def isConnector (e : PhasorRecord) : Bool := e.rtype = "connector"

/-- `_addBinding(id0, id1)`: ensure a set exists for `id0`, then add `id1`. -/
def addBinding (b : List (String × List String)) (id0 id1 : String) :
    List (String × List String) :=
  (if b.any (fun p => p.1 = id0) then b else b ++ [(id0, [])]).map
    (fun p => if p.1 = id0 then (p.1, setAdd p.2 id1) else p)

/-- `_updateBindings(element)`: symmetric edges for each resolved endpoint
of a connector; plain elements produce no edges. -/
def updateBindings (b : List (String × List String)) (e : PhasorRecord) :
    List (String × List String) :=
  if isConnector e then
    let b := match e.startElement with
      | some s => addBinding (addBinding b s e.id) e.id s
      | none => b
    match e.endElement with
      | some t => addBinding (addBinding b t e.id) e.id t
      | none => b
  else b

/-- The body of the `_syncFromExistingContainer` loop for one record:
construct (missing ctor is fatal), cache under `element.id`, widen the
bounds (`if index > max … else if index < min …`), update bindings. -/
def syncOne (s : SurfaceState) (entry : String × PhasorRecord) :
    Except String SurfaceState :=
  let e := entry.2
  if knownType e.rtype then
    let s1 := { s with elements := assocSet s.elements e.id e }
    let s2 :=
      if jsLt s1.maxIdx e.index then { s1 with maxIdx := e.index }
      else if jsLt e.index s1.minIdx then { s1 with minIdx := e.index }
      else s1
    .ok { s2 with bindings := updateBindings s2.bindings e }
  else .error "assertExists: ElementCtor"

/-- `_syncFromExistingContainer()`: fold the loop over the container. -/
def syncFromExistingContainer (s : SurfaceState) : Except String SurfaceState :=
  s.yContainer.foldlM syncOne s

/-- `new SurfaceManager(yContainer)`: bounds start at `\x7b min: 'a0', max:
'a0' \x7d`, cache and binding graph empty, then the initial scan runs. -/
def mkSurfaceManager (c : Store) : Except String SurfaceState :=
  syncFromExistingContainer ⟨c, [], [], "a0", "a0"⟩

/-- A change-batch entry's resolved action. -/
inductive YAction
  | add
  | update
  | delete
deriving DecidableEq, Repr

/-- One entry of `_onYContainer`'s loop over `event.keysChanged`: the id
and the action resolved from `event.changes.keys` (`none` when missing —
the `console.error('invalid event')` path).  `keyAfter` is
`generateKeyBetween(·, null)`.  Modelled from the spec: the Order-Key
Generator (`generateKeyBetween`, `utils/std.js`) is not part of the
sources; `generateKeyBetween(a, null)` is "key after `a` with no upper
bound", kept abstract as a parameter. -/
def processEntry (keyAfter : String → String) (s : SurfaceState)
    (id : String) (act : Option YAction) : Except String SurfaceState :=
  match act with
  | none => .ok s
  | some .update => .ok s
  | some .add =>
      match assocGet s.yContainer id with
      | none => .error "TypeError: yElement is undefined"
      | some e =>
          if knownType e.rtype then
            let s1 := { s with elements := assocSet s.elements e.id e }
            let s2 :=
              if jsLt s1.maxIdx e.index then { s1 with maxIdx := e.index }
              else s1
            .ok { s2 with bindings := updateBindings s2.bindings e }
          else .error "assertExists: ElementCtor"
  | some .delete =>
      match assocGet s.elements id with
      | none => .error "assertExists: element"
      | some e =>
          let s1 := { s with elements := assocDelete s.elements id }
          if e.index = s1.minIdx then
            .ok { s1 with minIdx := keyAfter e.index }
          else .ok s1

/-- `_onYContainer(event)`: process every changed id of the batch; a thrown
assertion aborts the remainder.  An empty batch is a no-op (so the
`event.changes.keys.size === 0` guard is the empty fold). -/
def processBatch (keyAfter : String → String) (s : SurfaceState)
    (batch : List (String × Option YAction)) : Except String SurfaceState :=
  batch.foldlM (fun s p => processEntry keyAfter s p.1 p.2) s

/-- The data of one `addElement(type, properties)` call that the structural
model needs: the fresh id from `generateElementId()`, the type tag, the
`randomSeed()` value, and — when the type is a connector — the endpoint
references carried in `properties`. -/
structure AddCall where
  id : String
  rtype : String
  seed : Int
  startElement : Option String
  endElement : Option String
deriving DecidableEq, Repr

/-- `addElement`: assign `index = generateKeyBetween(this.indexes.max,
null)`, build the record, write it to the container under the generated
id, return the id.  The cache is not touched here — the change
notification does that. -/
def addElement (keyAfter : String → String) (s : SurfaceState)
    (c : AddCall) : SurfaceState × String :=
  let idx := keyAfter s.maxIdx
  let r : PhasorRecord :=
    ⟨c.id, c.rtype, idx, c.seed, c.startElement, c.endElement⟩
  ({ s with yContainer := assocSet s.yContainer c.id r }, c.id)

/-- One local `addElement` call followed by the processing of its change
notification (a one-entry `add` batch for the new id). -/
def addAndNotify (keyAfter : String → String) (s : SurfaceState)
    (c : AddCall) : Except String SurfaceState :=
  let p := addElement keyAfter s c
  processBatch keyAfter p.1 [(p.2, some YAction.add)]

/-- A sequence of local `addElement` calls, each notification processed
before the next call; also returns the order keys assigned in call order. -/
def runAdds (keyAfter : String → String) (s : SurfaceState) :
    List AddCall → Except String (SurfaceState × List String)
  | [] => .ok (s, [])
  | c :: cs =>
      match addAndNotify keyAfter s c with
      | .error e => .error e
      | .ok s1 =>
          match runAdds keyAfter s1 cs with
          | .error e => .error e
          | .ok (s2, ks) => .ok (s2, keyAfter s.maxIdx :: ks)

/-- `removeElement(id)`: delete the store record inside a transaction; the
cache, graph and bounds react only through the delete notification. -/
def removeElement (s : SurfaceState) (id : String) : SurfaceState :=
  { s with yContainer := assocDelete s.yContainer id }

/-- `hasElement(id)`: store membership. -/
def hasElement (s : SurfaceState) (id : String) : Bool :=
  assocHas s.yContainer id

/-- `pickById(id)`: cache lookup (`undefined` ⇒ `none`). -/
def pickById (s : SurfaceState) (id : String) : Option PhasorRecord :=
  assocGet s.elements id

/-- `getBindingElements(id)`: the set of bound ids, resolved through
`pickById` with dangling ids filtered out; `[]` when the set is missing or
empty. -/
def getBindingElements (s : SurfaceState) (id : String) : List PhasorRecord :=
  match assocGet s.bindings id with
  | none => []
  | some bids =>
      if bids.isEmpty then []
      else bids.filterMap (fun b => assocGet s.elements b)

/-- Observable events of one `doc.transact` body, for `updateIndexes`:
the bracketing of the single transaction, each `yElement.set('index', …)`
write, and the `callback(keys)` invocation. -/
inductive TxEvent
  | txBegin
  | setIndex (id : String) (key : String)
  | callbackCall (keys : List String)
  | txEnd
deriving DecidableEq, Repr

/-- The `for (; i < len; i++)` loop of `updateIndexes` over the positional
pairs `(keys[i], elements[i].id)`: read the record (a missing record makes
`yElement.get` throw), skip when the stored index equals the new key, else
write the new index, recording a `setIndex` event. -/
def updateIndexesLoop (st : Store) :
    List (String × String) → Except String (Store × List TxEvent)
  | [] => .ok (st, [])
  | (k, eid) :: rest =>
      match assocGet st eid with
      | none => .error "TypeError: yElement is undefined"
      | some r =>
          if r.index = k then updateIndexesLoop st rest
          else
            match updateIndexesLoop (assocSet st eid { r with index := k }) rest with
            | .error e => .error e
            | .ok (st', tr) => .ok (st', TxEvent.setIndex eid k :: tr)

/-- `updateIndexes(keys, elements, callback)`: run the write loop and then
`callback(keys)`, all inside one `this._transact` — the event trace is
bracketed by a single `txBegin`/`txEnd` pair.  The positional pairing
`keys[i]` / `elements[i]` is the zip (the source loops to
`elements.length`; the claims concern equal-length calls). -/
def updateIndexes (keys : List String) (els : List PhasorRecord)
    (st : Store) : Except String (Store × List TxEvent) :=
  match updateIndexesLoop st (keys.zip (els.map (fun e => e.id))) with
  | .error e => .error e
  | .ok (st', tr) =>
      .ok (st', TxEvent.txBegin :: tr
                ++ [TxEvent.callbackCall keys, TxEvent.txEnd])

/-- Integer-coordinate rectangle for the query façade (`IBound`).  The
claims about picking concern the selection logic, not float arithmetic, so
coordinates are embedded as integers. -/
structure PBound where
  x : Int
  y : Int
  w : Int
  h : Int
deriving DecidableEq, Repr

/-- `intersects(a, b)` of `utils/bound.ts` (strict rectangle overlap).
Modelled from the spec: the spatial index "returns elements overlapping a
given bound"; the utility module is not part of the sources. -/
def boundIntersects (a b : PBound) : Bool :=
  a.x < b.x + b.w && b.x < a.x + a.w && a.y < b.y + b.h && b.y < a.y + a.h

/-- Point membership in a bound (what a shape-accurate hit test implies). -/
def pointInBound (b : PBound) (px py : Int) : Bool :=
  b.x ≤ px && px ≤ b.x + b.w && b.y ≤ py && py ≤ b.y + b.h

/-- A live element as the grid and hit test see it: id, order key, bound. -/
structure GridElement where
  id : String
  index : String
  bound : PBound
deriving DecidableEq, Repr

/-- `this._renderer.gridManager.search(bound)`.  Modelled from the spec:
the renderer's spatial index is not part of the sources; it returns the
live elements overlapping the probe bound, and per the spec candidates
"arrive … in ascending z-order", i.e. sorted by order key. -/
def gridSearch (els : List GridElement) (b : PBound) : List GridElement :=
  (els.filter (fun e => boundIntersects b e.bound)).mergeSort
    (fun a b => jsLe a.index b.index)

/-- `pickByPoint(x, y)`: probe bound `(x-1, y-1, 2, 2)`, grid candidates,
then the per-element precise hit test `hit`. -/
def pickByPoint (els : List GridElement) (hit : GridElement → Int → Int → Bool)
    (x y : Int) : List GridElement :=
  (gridSearch els ⟨x - 1, y - 1, 2, 2⟩).filter (fun e => hit e x y)

/-- `pickTop(x, y)`: `results[results.length - 1] ?? null`. -/
def pickTop (els : List GridElement) (hit : GridElement → Int → Int → Bool)
    (x y : Int) : Option GridElement :=
  (pickByPoint els hit x y).getLast?

/-- Concrete order-key generator used to evaluate the model on closed
inputs.  Modelled from the spec: `generateKeyBetween(a, null)` must
produce a key strictly after `a` (spec §2, §9 require only density and
unbounded generation; the encoding is an implementation choice); appending
a code unit yields a lexicographically larger string. -/
def specKeyAfter (a : String) : String := a ++ "V"

/-- A property value as stored in an element record (strings and numbers
are the shapes the manager itself writes: ids, order keys, seeds). -/
inductive PropVal
  | str (s : String)
  | num (n : Int)
deriving DecidableEq, Repr

/-- Lookup in an ordered list of object-literal entries where a later
entry for the same key overrides an earlier one — the semantics of
JS spread `\x7b ...a, ...b \x7d` followed by key iteration: the LAST
binding for a key wins. -/
def lookupLast : List (String × PropVal) → String → Option PropVal
  | [], _ => none
  | (k', v) :: rest, k =>
      match lookupLast rest k with
      | some w => some w
      | none => if k' = k then some v else none

/-- `addElement`'s stored property object: `\x7b ...defaultProps,
...properties, id, index: generateKeyBetween(this.indexes.max, null),
seed: randomSeed() \x7d`; the `for (const key in props) yMap.set(key,
props[key])` loop then stores exactly these bindings, so the stored
record's field lookup is `lookupLast` over this concatenation. -/
def addElementProps (defaultProps callerProps : List (String × PropVal))
    (genId maxIdx : String) (genSeed : Int)
    (keyAfter : String → String) : List (String × PropVal) :=
  defaultProps ++ callerProps ++
    [("id", PropVal.str genId), ("index", PropVal.str (keyAfter maxIdx)),
     ("seed", PropVal.num genSeed)]

/-- The order-bounds invariant of spec §3 for the live cache: for every
cached element, neither `index < min` nor `max < index` under JS string
comparison, i.e. `min ≤ index ≤ max`. -/
def boundsInv (s : SurfaceState) : Prop :=
  ∀ p ∈ s.elements,
    jsLt p.2.index s.minIdx = false ∧ jsLt s.maxIdx p.2.index = false

theorem char_eq_of_toNat_eq {a b : Char} (h : a.toNat = b.toNat) : a = b := by
  have ha := Char.ofNat_toNat a
  rw [h, Char.ofNat_toNat] at ha
  exact ha.symm

theorem jsLtChars_irrefl : ∀ l : List Char, jsLtChars l l = false
  | [] => rfl
  | c :: cs => by
      simp only [jsLtChars]
      rw [if_neg (by omega), if_neg (by omega)]
      exact jsLtChars_irrefl cs

theorem jsLtChars_trans :
    ∀ {l1 l2 l3 : List Char}, jsLtChars l1 l2 = true →
      jsLtChars l2 l3 = true → jsLtChars l1 l3 = true := by
  intro l1
  induction l1 with
  | nil =>
      intro l2 l3 h1 h2
      cases l2 with
      | nil => simp [jsLtChars] at h1
      | cons b bs =>
          cases l3 with
          | nil => simp [jsLtChars] at h2
          | cons c cs => simp [jsLtChars]
  | cons a as ih =>
      intro l2 l3 h1 h2
      cases l2 with
      | nil => simp [jsLtChars] at h1
      | cons b bs =>
          cases l3 with
          | nil => simp [jsLtChars] at h2
          | cons c cs =>
              simp only [jsLtChars] at h1 h2 ⊢
              by_cases hab : a.toNat < b.toNat
              · by_cases hbc : b.toNat < c.toNat
                · rw [if_pos (show a.toNat < c.toNat by omega)]
                · rw [if_neg hbc] at h2
                  by_cases hcb : c.toNat < b.toNat
                  · rw [if_pos hcb] at h2
                    exact absurd h2 (by simp)
                  · rw [if_pos (show a.toNat < c.toNat by omega)]
              · rw [if_neg hab] at h1
                by_cases hba : b.toNat < a.toNat
                · rw [if_pos hba] at h1
                  exact absurd h1 (by simp)
                · rw [if_neg hba] at h1
                  by_cases hbc : b.toNat < c.toNat
                  · rw [if_pos (show a.toNat < c.toNat by omega)]
                  · rw [if_neg hbc] at h2
                    by_cases hcb : c.toNat < b.toNat
                    · rw [if_pos hcb] at h2
                      exact absurd h2 (by simp)
                    · rw [if_neg hcb] at h2
                      rw [if_neg (show ¬ a.toNat < c.toNat by omega),
                          if_neg (show ¬ c.toNat < a.toNat by omega)]
                      exact ih h1 h2

theorem jsLtChars_eq_or_gt :
    ∀ {l1 l2 : List Char}, jsLtChars l1 l2 = false →
      l1 = l2 ∨ jsLtChars l2 l1 = true := by
  intro l1
  induction l1 with
  | nil =>
      intro l2 h
      cases l2 with
      | nil => exact Or.inl rfl
      | cons b bs => simp [jsLtChars] at h
  | cons a as ih =>
      intro l2 h
      cases l2 with
      | nil => exact Or.inr rfl
      | cons b bs =>
          simp only [jsLtChars] at h ⊢
          by_cases hab : a.toNat < b.toNat
          · rw [if_pos hab] at h
            exact absurd h (by simp)
          · rw [if_neg hab] at h
            by_cases hba : b.toNat < a.toNat
            · right
              rw [if_pos hba]
            · rw [if_neg hba] at h
              have heq : a = b := char_eq_of_toNat_eq (by omega)
              rcases ih h with h' | h'
              · left
                rw [heq, h']
              · right
                rw [if_neg (show ¬ b.toNat < a.toNat from hba),
                    if_neg (show ¬ a.toNat < b.toNat from hab)]
                exact h'

theorem jsLt_irrefl (a : String) : jsLt a a = false :=
  jsLtChars_irrefl a.data

theorem jsLt_trans {a b c : String} (h1 : jsLt a b = true)
    (h2 : jsLt b c = true) : jsLt a c = true :=
  jsLtChars_trans h1 h2

theorem jsLt_asymm {a b : String} (h : jsLt a b = true) : jsLt b a = false := by
  cases hv : jsLt b a with
  | false => rfl
  | true => exact absurd (jsLt_trans h hv) (by simp [jsLt_irrefl])

theorem jsLt_eq_or_gt {a b : String} (h : jsLt a b = false) :
    a = b ∨ jsLt b a = true := by
  rcases jsLtChars_eq_or_gt h with h' | h'
  · exact Or.inl (String.ext h')
  · exact Or.inr h'

theorem jsLt_false_trans {a b c : String} (h1 : jsLt a b = false)
    (h2 : jsLt b c = false) : jsLt a c = false := by
  cases hv : jsLt a c with
  | false => rfl
  | true =>
      exfalso
      rcases jsLt_eq_or_gt h1 with rfl | h1'
      · rcases jsLt_eq_or_gt h2 with rfl | h2'
        · simp [jsLt_irrefl] at hv
        · exact absurd (jsLt_trans h2' hv) (by simp [jsLt_irrefl])
      · rcases jsLt_eq_or_gt h2 with rfl | h2'
        · exact absurd (jsLt_trans hv h1') (by simp [jsLt_irrefl])
        · exact absurd (jsLt_trans (jsLt_trans h2' h1') hv)
            (by simp [jsLt_irrefl])

theorem jsLtChars_append_cons :
    ∀ (l : List Char) (c : Char) (cs : List Char),
      jsLtChars l (l ++ c :: cs) = true
  | [], _, _ => rfl
  | a :: as, c, cs => by
      simp only [List.cons_append, jsLtChars]
      rw [if_neg (by omega), if_neg (by omega)]
      exact jsLtChars_append_cons as c cs

theorem jsLt_specKeyAfter (a : String) : jsLt a (specKeyAfter a) = true := by
  show jsLtChars a.data (a ++ "V").data = true
  rw [String.data_append]
  exact jsLtChars_append_cons a.data 'V' []

theorem assocGet_map_replace {α : Type} (k : String) (v : α) :
    ∀ l : List (String × α), l.any (fun p => p.1 = k) = true →
      assocGet (l.map (fun p => if p.1 = k then (k, v) else p)) k = some v := by
  intro l
  induction l with
  | nil => intro h; simp at h
  | cons a l ih =>
      obtain ⟨a1, a2⟩ := a
      intro h
      simp only [List.map_cons]
      by_cases ha : a1 = k
      · rw [if_pos ha]
        simp [assocGet]
      · rw [if_neg ha]
        show assocGet ((a1, a2) :: _) k = some v
        rw [show assocGet ((a1, a2) :: l.map _) k =
              assocGet (l.map (fun p => if p.1 = k then (k, v) else p)) k from
            by simp [assocGet, ha]]
        apply ih
        simp only [List.any_cons, Bool.or_eq_true] at h
        rcases h with h | h
        · exact absurd (of_decide_eq_true h) ha
        · exact h

theorem assocGet_map_replace_ne {α : Type} (k k' : String) (v : α)
    (hne : ¬ k = k') :
    ∀ l : List (String × α),
      assocGet (l.map (fun p => if p.1 = k then (k, v) else p)) k' =
        assocGet l k' := by
  intro l
  induction l with
  | nil => rfl
  | cons a l ih =>
      obtain ⟨a1, a2⟩ := a
      simp only [List.map_cons]
      by_cases ha : a1 = k
      · rw [if_pos ha]
        show assocGet ((k, v) :: _) k' = assocGet ((a1, a2) :: l) k'
        simp only [assocGet, if_neg hne, if_neg (show ¬ a1 = k' from ha ▸ hne)]
        exact ih
      · rw [if_neg ha]
        show assocGet ((a1, a2) :: _) k' = assocGet ((a1, a2) :: l) k'
        simp only [assocGet]
        by_cases ha' : a1 = k'
        · rw [if_pos ha', if_pos ha']
        · rw [if_neg ha', if_neg ha']
          exact ih

theorem assocGet_append_self {α : Type} (k : String) (v : α) :
    ∀ l : List (String × α), l.any (fun p => p.1 = k) = false →
      assocGet (l ++ [(k, v)]) k = some v := by
  intro l
  induction l with
  | nil => simp [assocGet]
  | cons a l ih =>
      obtain ⟨a1, a2⟩ := a
      intro h
      simp only [List.any_cons, Bool.or_eq_false_iff] at h
      simp only [List.cons_append, assocGet]
      rw [if_neg (by simpa using h.1)]
      exact ih h.2

theorem assocGet_append_ne {α : Type} (k k' : String) (v : α)
    (hne : ¬ k = k') :
    ∀ l : List (String × α), assocGet (l ++ [(k, v)]) k' = assocGet l k' := by
  intro l
  induction l with
  | nil => simp [assocGet, if_neg hne]
  | cons a l ih =>
      obtain ⟨a1, a2⟩ := a
      simp only [List.cons_append, assocGet]
      by_cases ha : a1 = k'
      · rw [if_pos ha, if_pos ha]
      · rw [if_neg ha, if_neg ha]
        exact ih

theorem assocGet_assocSet_self {α : Type} (l : List (String × α))
    (k : String) (v : α) : assocGet (assocSet l k v) k = some v := by
  unfold assocSet
  by_cases h : l.any (fun p => p.1 = k) = true
  · rw [if_pos h]
    exact assocGet_map_replace k v l h
  · rw [if_neg h]
    exact assocGet_append_self k v l (Bool.eq_false_iff.mpr h)

theorem assocGet_assocSet_ne {α : Type} (l : List (String × α))
    (k k' : String) (v : α) (hne : ¬ k = k') :
    assocGet (assocSet l k v) k' = assocGet l k' := by
  unfold assocSet
  by_cases h : l.any (fun p => p.1 = k) = true
  · rw [if_pos h]
    exact assocGet_map_replace_ne k k' v hne l
  · rw [if_neg h]
    exact assocGet_append_ne k k' v hne l

theorem mem_assocSet {α : Type} {l : List (String × α)} {k : String}
    {v : α} {p : String × α} (h : p ∈ assocSet l k v) :
    p ∈ l ∨ p = (k, v) := by
  unfold assocSet at h
  by_cases hc : l.any (fun q => q.1 = k) = true
  · rw [if_pos hc] at h
    rcases List.mem_map.mp h with ⟨q, hq, hfq⟩
    by_cases hq1 : q.1 = k
    · rw [if_pos hq1] at hfq
      exact Or.inr hfq.symm
    · rw [if_neg hq1] at hfq
      exact Or.inl (hfq ▸ hq)
  · rw [if_neg hc] at h
    rcases List.mem_append.mp h with h | h
    · exact Or.inl h
    · simp at h
      exact Or.inr (by simp [h])

theorem assocGet_assocDelete_self {α : Type} (k : String) :
    ∀ l : List (String × α), assocGet (assocDelete l k) k = none := by
  intro l
  induction l with
  | nil => rfl
  | cons a l ih =>
      obtain ⟨a1, a2⟩ := a
      simp only [assocDelete, List.filter_cons] at ih ⊢
      by_cases ha : a1 = k
      · rw [if_neg (by simp [ha])]
        exact ih
      · rw [if_pos (by simpa using ha)]
        show assocGet ((a1, a2) :: _) k = none
        simp only [assocGet, if_neg ha]
        exact ih

theorem assocGet_assocDelete_ne {α : Type} (k k' : String) (hne : ¬ k = k') :
    ∀ l : List (String × α), assocGet (assocDelete l k) k' = assocGet l k' := by
  intro l
  induction l with
  | nil => rfl
  | cons a l ih =>
      obtain ⟨a1, a2⟩ := a
      simp only [assocDelete, List.filter_cons] at ih ⊢
      by_cases ha : a1 = k
      · rw [if_neg (by simp [ha])]
        rw [show assocGet ((a1, a2) :: l) k' = assocGet l k' from by
          simp only [assocGet]
          rw [if_neg (fun h : a1 = k' => hne (ha ▸ h))]]
        exact ih
      · rw [if_pos (by simpa using ha)]
        show assocGet ((a1, a2) :: _) k' = assocGet ((a1, a2) :: l) k'
        simp only [assocGet]
        by_cases ha' : a1 = k'
        · rw [if_pos ha', if_pos ha']
        · rw [if_neg ha', if_neg ha']
          exact ih

theorem any_key_of_assocGet {α : Type} {l : List (String × α)} {k : String}
    {v : α} (h : assocGet l k = some v) :
    l.any (fun p => p.1 = k) = true := by
  induction l with
  | nil => simp [assocGet] at h
  | cons a l ih =>
      obtain ⟨a1, a2⟩ := a
      simp only [assocGet] at h
      by_cases ha : a1 = k
      · simp [List.any_cons, ha]
      · rw [if_neg ha] at h
        simp [List.any_cons, ih h]

theorem any_assocGet_isSome {α : Type} {l : List (String × α)} {k : String}
    (h : l.any (fun p => p.1 = k) = true) : ∃ v, assocGet l k = some v := by
  induction l with
  | nil => simp at h
  | cons a l ih =>
      obtain ⟨a1, a2⟩ := a
      simp only [List.any_cons, Bool.or_eq_true] at h
      by_cases ha : a1 = k
      · exact ⟨a2, by simp [assocGet, ha]⟩
      · rcases h with h | h
        · exact absurd (of_decide_eq_true h) ha
        · rcases ih h with ⟨v, hv⟩
          exact ⟨v, by simp only [assocGet, if_neg ha]; exact hv⟩

theorem assocGet_map_update {α : Type} (g : α → α) (x : String) :
    ∀ (l : List (String × α)) (s : α), assocGet l x = some s →
      assocGet (l.map (fun p => if p.1 = x then (p.1, g p.2) else p)) x =
        some (g s) := by
  intro l
  induction l with
  | nil => intro s h; simp [assocGet] at h
  | cons a l ih =>
      obtain ⟨a1, a2⟩ := a
      intro s h
      simp only [assocGet] at h
      simp only [List.map_cons]
      by_cases ha : a1 = x
      · rw [if_pos ha] at h ⊢
        show assocGet ((a1, g a2) :: _) x = _
        simp only [assocGet, if_pos ha]
        rw [Option.some_inj.mp h]
      · rw [if_neg ha] at h ⊢
        show assocGet ((a1, a2) :: _) x = _
        simp only [assocGet, if_neg ha]
        exact ih s h

theorem assocGet_map_update_ne {α : Type} (g : α → α) (x w : String)
    (hne : ¬ x = w) :
    ∀ l : List (String × α),
      assocGet (l.map (fun p => if p.1 = x then (p.1, g p.2) else p)) w =
        assocGet l w := by
  intro l
  induction l with
  | nil => rfl
  | cons a l ih =>
      obtain ⟨a1, a2⟩ := a
      simp only [List.map_cons]
      by_cases ha : a1 = x
      · rw [if_pos ha]
        show assocGet ((a1, g a2) :: _) w = assocGet ((a1, a2) :: l) w
        simp only [assocGet, if_neg (show ¬ a1 = w from ha ▸ hne)]
        exact ih
      · rw [if_neg ha]
        show assocGet ((a1, a2) :: _) w = assocGet ((a1, a2) :: l) w
        simp only [assocGet]
        by_cases ha' : a1 = w
        · rw [if_pos ha', if_pos ha']
        · rw [if_neg ha', if_neg ha']
          exact ih

theorem mem_setAdd_self (s : List String) (x : String) : x ∈ setAdd s x := by
  unfold setAdd
  by_cases h : s.contains x = true
  · rw [if_pos h]
    exact List.elem_iff.mp h
  · rw [if_neg h]
    exact List.mem_append.mpr (Or.inr (by simp))

theorem mem_setAdd_of_mem {s : List String} {y : String} (x : String)
    (h : y ∈ s) : y ∈ setAdd s x := by
  unfold setAdd
  by_cases hc : s.contains x = true
  · rw [if_pos hc]
    exact h
  · rw [if_neg hc]
    exact List.mem_append_left _ h

theorem addBinding_get_self (b : List (String × List String)) (x y : String) :
    ∃ s, assocGet (addBinding b x y) x = some s ∧ y ∈ s := by
  unfold addBinding
  by_cases h : b.any (fun p => p.1 = x) = true
  · rw [if_pos h]
    rcases any_assocGet_isSome h with ⟨s, hs⟩
    exact ⟨setAdd s y, assocGet_map_update (fun t => setAdd t y) x b s hs, mem_setAdd_self s y⟩
  · rw [if_neg h]
    have hget : assocGet (b ++ [(x, [])]) x = some [] :=
      assocGet_append_self x [] b (Bool.eq_false_iff.mpr h)
    exact ⟨setAdd [] y, assocGet_map_update (fun t => setAdd t y) x _ _ hget,
      mem_setAdd_self [] y⟩

theorem addBinding_get_ne (b : List (String × List String)) (x y w : String)
    (hne : ¬ x = w) : assocGet (addBinding b x y) w = assocGet b w := by
  unfold addBinding
  by_cases h : b.any (fun p => p.1 = x) = true
  · rw [if_pos h]
    exact assocGet_map_update_ne (fun t => setAdd t y) x w hne b
  · rw [if_neg h]
    rw [assocGet_map_update_ne (fun t => setAdd t y) x w hne]
    exact assocGet_append_ne x w [] hne b

theorem addBinding_mono {b : List (String × List String)} {w z : String}
    (x y : String) (h : ∃ s, assocGet b w = some s ∧ z ∈ s) :
    ∃ s', assocGet (addBinding b x y) w = some s' ∧ z ∈ s' := by
  rcases h with ⟨s, hs, hz⟩
  by_cases hxw : x = w
  · subst hxw
    unfold addBinding
    rw [if_pos (any_key_of_assocGet hs)]
    exact ⟨setAdd s y, assocGet_map_update (fun t => setAdd t y) x b s hs, mem_setAdd_of_mem y hz⟩
  · rw [addBinding_get_ne b x y w hxw]
    exact ⟨s, hs, hz⟩

theorem updateBindings_conn_mem (b : List (String × List String))
    (e : PhasorRecord) (hc : isConnector e = true) (a bb : String)
    (hs : e.startElement = some a) (he : e.endElement = some bb) :
    (∃ s, assocGet (updateBindings b e) e.id = some s ∧ a ∈ s ∧ bb ∈ s) ∧
    (∃ s, assocGet (updateBindings b e) a = some s ∧ e.id ∈ s) ∧
    (∃ s, assocGet (updateBindings b e) bb = some s ∧ e.id ∈ s) := by
  have hub : updateBindings b e =
      addBinding (addBinding (addBinding (addBinding b a e.id) e.id a)
        bb e.id) e.id bb := by
    unfold updateBindings
    rw [if_pos hc, hs, he]
  rw [hub]
  refine ⟨?_, ?_, ?_⟩
  · rcases addBinding_mono e.id bb
        (addBinding_mono bb e.id (addBinding_get_self (addBinding b a e.id) e.id a))
      with ⟨s1, hs1, ha1⟩
    rcases addBinding_get_self (addBinding (addBinding (addBinding b a e.id)
        e.id a) bb e.id) e.id bb with ⟨s2, hs2, hb2⟩
    rw [hs1] at hs2
    exact ⟨s1, hs1, ha1, (Option.some_inj.mp hs2) ▸ hb2⟩
  · exact addBinding_mono e.id bb (addBinding_mono bb e.id
      (addBinding_mono e.id a (addBinding_get_self b a e.id)))
  · exact addBinding_mono e.id bb
      (addBinding_get_self (addBinding (addBinding b a e.id) e.id a) bb e.id)

theorem assocHas_assocDelete_self {α : Type} (l : List (String × α))
    (k : String) : assocHas (assocDelete l k) k = false := by
  rw [Bool.eq_false_iff]
  intro h
  rcases List.any_eq_true.mp h with ⟨p, hp, hk⟩
  rcases List.mem_filter.mp hp with ⟨_, hnk⟩
  simp at hk hnk
  exact hnk hk

theorem processEntry_none_eq (ka : String → String) (s : SurfaceState)
    (id : String) : processEntry ka s id none = .ok s := rfl

theorem processEntry_update_eq (ka : String → String) (s : SurfaceState)
    (id : String) : processEntry ka s id (some YAction.update) = .ok s := rfl

theorem processEntry_add_eq (ka : String → String) (s : SurfaceState)
    (id : String) (e : PhasorRecord)
    (hget : assocGet s.yContainer id = some e)
    (hT : knownType e.rtype = true) :
    processEntry ka s id (some YAction.add) = .ok
      { yContainer := s.yContainer,
        elements := assocSet s.elements e.id e,
        bindings := updateBindings s.bindings e,
        minIdx := s.minIdx,
        maxIdx := if jsLt s.maxIdx e.index then e.index else s.maxIdx } := by
  show (match assocGet s.yContainer id with
      | none => Except.error "TypeError: yElement is undefined"
      | some e =>
          if knownType e.rtype then
            let s1 := { s with elements := assocSet s.elements e.id e }
            let s2 :=
              if jsLt s1.maxIdx e.index then { s1 with maxIdx := e.index }
              else s1
            Except.ok { s2 with bindings := updateBindings s2.bindings e }
          else Except.error "assertExists: ElementCtor") = _
  rw [hget]
  show (if knownType e.rtype then _ else _) = _
  rw [if_pos hT]
  show Except.ok _ = _
  by_cases hm : jsLt s.maxIdx e.index = true
  · rw [if_pos hm, if_pos hm]
  · rw [if_neg hm, if_neg hm]

theorem processEntry_delete_eq (ka : String → String) (s : SurfaceState)
    (id : String) (e : PhasorRecord) (hget : assocGet s.elements id = some e) :
    processEntry ka s id (some YAction.delete) = .ok
      { yContainer := s.yContainer,
        elements := assocDelete s.elements id,
        bindings := s.bindings,
        minIdx := if e.index = s.minIdx then ka e.index else s.minIdx,
        maxIdx := s.maxIdx } := by
  show (match assocGet s.elements id with
      | none => Except.error "assertExists: element"
      | some e =>
          let s1 := { s with elements := assocDelete s.elements id }
          if e.index = s1.minIdx then
            Except.ok { s1 with minIdx := ka e.index }
          else Except.ok s1) = _
  rw [hget]
  show (if e.index = s.minIdx then _ else _) = _
  by_cases hm : e.index = s.minIdx
  · rw [if_pos hm, if_pos hm]
  · rw [if_neg hm, if_neg hm]

theorem processEntry_delete_missing (ka : String → String) (s : SurfaceState)
    (id : String) (hget : assocGet s.elements id = none) :
    processEntry ka s id (some YAction.delete) =
      .error "assertExists: element" := by
  show (match assocGet s.elements id with
      | none => Except.error "assertExists: element"
      | some e =>
          let s1 := { s with elements := assocDelete s.elements id }
          if e.index = s1.minIdx then
            Except.ok { s1 with minIdx := ka e.index }
          else Except.ok s1) = _
  rw [hget]

theorem processBatch_cons (ka : String → String) (s : SurfaceState)
    (p : String × Option YAction) (rest : List (String × Option YAction)) :
    processBatch ka s (p :: rest) =
      (processEntry ka s p.1 p.2 >>= fun s1 => processBatch ka s1 rest) := by
  rfl

theorem processBatch_cons_error (ka : String → String) (s : SurfaceState)
    (p : String × Option YAction) (rest : List (String × Option YAction))
    (msg : String) (h : processEntry ka s p.1 p.2 = .error msg) :
    processBatch ka s (p :: rest) = .error msg := by
  rw [processBatch_cons, h]
  rfl

theorem processBatch_skip_mid (ka : String → String)
    (mid : String × Option YAction)
    (hmid : ∀ s : SurfaceState, processEntry ka s mid.1 mid.2 = .ok s) :
    ∀ (l1 : List (String × Option YAction)) (s : SurfaceState)
      (l2 : List (String × Option YAction)),
      processBatch ka s (l1 ++ mid :: l2) = processBatch ka s (l1 ++ l2) := by
  intro l1
  induction l1 with
  | nil =>
      intro s l2
      show processBatch ka s (mid :: l2) = processBatch ka s l2
      rw [processBatch_cons, hmid s]
      rfl
  | cons a l1 ih =>
      intro s l2
      rw [List.cons_append, List.cons_append, processBatch_cons,
          processBatch_cons]
      cases h : processEntry ka s a.1 a.2 with
      | error e => rfl
      | ok s1 =>
          show processBatch ka s1 (l1 ++ mid :: l2) =
            processBatch ka s1 (l1 ++ l2)
          exact ih s1 l2

theorem foldlM_except_inv {σ α : Type} (f : σ → α → Except String σ)
    (P : σ → Prop) (hf : ∀ s a s', P s → f s a = .ok s' → P s') :
    ∀ (l : List α) (s s' : σ), P s → l.foldlM f s = .ok s' → P s' := by
  intro l
  induction l with
  | nil =>
      intro s s' hP h
      rw [List.foldlM_nil] at h
      injection h with h
      exact h ▸ hP
  | cons a l ih =>
      intro s s' hP h
      rw [List.foldlM_cons] at h
      cases hfa : f s a with
      | error e =>
          rw [hfa] at h
          exact absurd h (by intro hh; injection hh)
      | ok s1 =>
          rw [hfa] at h
          exact ih s1 s' (hf s a s1 hP hfa) h

theorem addAndNotify_ok (ka : String → String)
    (hKA : ∀ a, jsLt a (ka a) = true) (s : SurfaceState) (c : AddCall)
    (hT : knownType c.rtype = true) :
    addAndNotify ka s c = .ok
      { yContainer := (assocSet s.yContainer c.id
          ⟨c.id, c.rtype, ka s.maxIdx, c.seed, c.startElement, c.endElement⟩),
        elements := (assocSet s.elements c.id
          ⟨c.id, c.rtype, ka s.maxIdx, c.seed, c.startElement, c.endElement⟩),
        bindings := (updateBindings s.bindings
          ⟨c.id, c.rtype, ka s.maxIdx, c.seed, c.startElement, c.endElement⟩),
        minIdx := s.minIdx,
        maxIdx := ka s.maxIdx } := by
  have h1 : addAndNotify ka s c =
      (processEntry ka
        { s with yContainer := (assocSet s.yContainer c.id
            ⟨c.id, c.rtype, ka s.maxIdx, c.seed, c.startElement,
              c.endElement⟩) }
        c.id (some YAction.add) >>= fun s1 => pure s1) := rfl
  rw [h1, processEntry_add_eq ka _ c.id
      ⟨c.id, c.rtype, ka s.maxIdx, c.seed, c.startElement, c.endElement⟩
      (assocGet_assocSet_self _ _ _) hT]
  show Except.ok _ = Except.ok _
  rw [Except.ok.injEq]
  have hif : (if jsLt s.maxIdx (ka s.maxIdx) then ka s.maxIdx else s.maxIdx)
      = ka s.maxIdx := if_pos (hKA s.maxIdx)
  exact SurfaceState.mk.injEq _ _ _ _ _ _ _ _ _ _ |>.mpr
    ⟨rfl, rfl, rfl, rfl, hif⟩

theorem addAndNotify_maxIdx (ka : String → String)
    (hKA : ∀ a, jsLt a (ka a) = true) (s : SurfaceState) (c : AddCall)
    (hT : knownType c.rtype = true) :
    ∃ s1, addAndNotify ka s c = .ok s1 ∧ s1.maxIdx = ka s.maxIdx :=
  ⟨_, addAndNotify_ok ka hKA s c hT, rfl⟩

/-- C3: for any sequence of local `addElement` calls on one manager (no
interleaved remote mutations), with each change notification processed
before the next call, the assigned order keys are strictly increasing in
call order, and after each call (i.e. after any such sequence) `indexes.max`
equals the key assigned by the most recent call.  Stated for any order-key
generator with the spec's `keyAfter` property. -/
theorem addElement_keys_strictly_increasing (ka : String → String)
    (hKA : ∀ a, jsLt a (ka a) = true) (s : SurfaceState)
    (calls : List AddCall) (hT : ∀ c ∈ calls, knownType c.rtype = true) :
    ∃ s' keys, runAdds ka s calls = .ok (s', keys) ∧
      keys.length = calls.length ∧
      List.Pairwise (fun a b => jsLt a b = true) keys ∧
      (∀ k ∈ keys, jsLt s.maxIdx k = true) ∧
      (∀ k, keys.getLast? = some k → s'.maxIdx = k) ∧
      (keys = [] → s'.maxIdx = s.maxIdx) := by
  induction calls generalizing s with
  | nil =>
      exact ⟨s, [], rfl, rfl, List.Pairwise.nil, by simp, by simp,
        fun _ => rfl⟩
  | cons c cs ih =>
      have hTc := hT c (List.mem_cons_self c cs)
      have hTcs : ∀ c' ∈ cs, knownType c'.rtype = true :=
        fun c' hc' => hT c' (List.mem_cons_of_mem c hc')
      obtain ⟨s1, hstep, hmax⟩ := addAndNotify_maxIdx ka hKA s c hTc
      obtain ⟨s', keys, hrun, hlen, hpw, hgt, hlast, hnil⟩ := ih s1 hTcs
      refine ⟨s', ka s.maxIdx :: keys, ?_, ?_, ?_, ?_, ?_, ?_⟩
      · show (match addAndNotify ka s c with
          | .error e => Except.error e
          | .ok s1 =>
              match runAdds ka s1 cs with
              | .error e => Except.error e
              | .ok (s2, ks) => Except.ok (s2, ka s.maxIdx :: ks)) =
          Except.ok (s', ka s.maxIdx :: keys)
        simp only [hstep, hrun]
      · simp [hlen]
      · exact List.pairwise_cons.mpr
          ⟨fun b hb => hmax ▸ hgt b hb, hpw⟩
      · intro k hk
        rcases List.mem_cons.mp hk with rfl | hk
        · exact hKA s.maxIdx
        · exact jsLt_trans (hKA s.maxIdx) (hmax ▸ hgt k hk)
      · intro k hk
        cases keys with
        | nil =>
            simp at hk
            rw [hnil rfl, hmax, hk]
        | cons y ys =>
            rw [List.getLast?_cons_cons] at hk
            exact hlast k hk
      · intro h
        exact absurd h (by simp)

theorem syncOne_eq (s : SurfaceState) (k : String) (e : PhasorRecord)
    (hT : knownType e.rtype = true) :
    syncOne s (k, e) = .ok
      { yContainer := s.yContainer,
        elements := assocSet s.elements e.id e,
        bindings := updateBindings s.bindings e,
        minIdx := (if jsLt s.maxIdx e.index then s.minIdx
          else if jsLt e.index s.minIdx then e.index else s.minIdx),
        maxIdx := (if jsLt s.maxIdx e.index then e.index else s.maxIdx) } := by
  show (if knownType e.rtype then _ else _) = _
  rw [if_pos hT]
  by_cases h1 : jsLt s.maxIdx e.index = true
  · simp only [h1, if_true]
  · simp only [h1, Bool.false_eq_true, if_false]
    by_cases h2 : jsLt e.index s.minIdx = true
    · simp only [h2, if_true]
    · simp only [h2, Bool.false_eq_true, if_false]

theorem syncOne_preserves (s : SurfaceState) (entry : String × PhasorRecord)
    (s' : SurfaceState)
    (hP : boundsInv s ∧ jsLt s.maxIdx s.minIdx = false)
    (h : syncOne s entry = .ok s') :
    boundsInv s' ∧ jsLt s'.maxIdx s'.minIdx = false := by
  obtain ⟨hInv, hmm⟩ := hP
  obtain ⟨k, e⟩ := entry
  by_cases hT : knownType e.rtype = true
  · rw [syncOne_eq s k e hT] at h
    injection h with h
    subst h
    by_cases h1 : jsLt s.maxIdx e.index = true
    · simp only [h1, if_true]
      have hemin : jsLt e.index s.minIdx = false := by
        cases hv : jsLt e.index s.minIdx with
        | false => rfl
        | true => exact absurd (jsLt_trans h1 hv) (by rw [hmm]; simp)
      refine ⟨?_, hemin⟩
      intro p hp
      simp only [boundsInv] at hp ⊢
      rcases mem_assocSet hp with hp | rfl
      · obtain ⟨hpmin, hpmax⟩ := hInv p hp
        refine ⟨hpmin, ?_⟩
        cases hv : jsLt e.index p.2.index with
        | false => rfl
        | true => exact absurd (jsLt_trans h1 hv) (by rw [hpmax]; simp)
      · exact ⟨hemin, jsLt_irrefl e.index⟩
    · have h1' : jsLt s.maxIdx e.index = false := Bool.eq_false_iff.mpr h1
      simp only [h1, Bool.false_eq_true, if_false]
      by_cases h2 : jsLt e.index s.minIdx = true
      · simp only [h2, if_true]
        refine ⟨?_, h1'⟩
        intro p hp
        rcases mem_assocSet hp with hp | rfl
        · obtain ⟨hpmin, hpmax⟩ := hInv p hp
          refine ⟨?_, hpmax⟩
          cases hv : jsLt p.2.index e.index with
          | false => rfl
          | true => exact absurd (jsLt_trans hv h2) (by rw [hpmin]; simp)
        · exact ⟨jsLt_irrefl e.index, h1'⟩
      · have h2' : jsLt e.index s.minIdx = false := Bool.eq_false_iff.mpr h2
        simp only [h2, Bool.false_eq_true, if_false]
        refine ⟨?_, hmm⟩
        intro p hp
        rcases mem_assocSet hp with hp | rfl
        · exact hInv p hp
        · exact ⟨h2', h1'⟩
  · exfalso
    have herr : syncOne s (k, e) = .error "assertExists: ElementCtor" := by
      show (if knownType e.rtype then _ else _) = _
      rw [if_neg hT]
    rw [herr] at h
    injection h

theorem mkSurfaceManager_boundsInv (c : Store) (s' : SurfaceState)
    (h : mkSurfaceManager c = .ok s') :
    boundsInv s' ∧ jsLt s'.maxIdx s'.minIdx = false :=
  foldlM_except_inv syncOne
    (fun s => boundsInv s ∧ jsLt s.maxIdx s.minIdx = false)
    (fun s a s'' hP hstep => syncOne_preserves s a s'' hP hstep)
    c ⟨c, [], [], "a0", "a0"⟩ s'
    ⟨fun p hp => absurd hp (List.not_mem_nil p), jsLt_irrefl "a0"⟩ h

theorem add_entry_preserves_boundsInv (ka : String → String)
    (s : SurfaceState) (id : String) (e : PhasorRecord) (s' : SurfaceState)
    (hInv : boundsInv s) (hget : assocGet s.yContainer id = some e)
    (hT : knownType e.rtype = true)
    (hge : jsLt e.index s.minIdx = false)
    (h : processEntry ka s id (some YAction.add) = .ok s') :
    boundsInv s' ∧ s'.minIdx = s.minIdx := by
  rw [processEntry_add_eq ka s id e hget hT] at h
  injection h with h
  subst h
  refine ⟨?_, rfl⟩
  intro p hp
  rcases mem_assocSet hp with hp | rfl
  · obtain ⟨hpmin, hpmax⟩ := hInv p hp
    refine ⟨hpmin, ?_⟩
    by_cases h1 : jsLt s.maxIdx e.index = true
    · simp only [h1, if_true]
      cases hv : jsLt e.index p.2.index with
      | false => rfl
      | true => exact absurd (jsLt_trans h1 hv) (by rw [hpmax]; simp)
    · simp only [h1, Bool.false_eq_true, if_false]
      exact hpmax
  · refine ⟨hge, ?_⟩
    by_cases h1 : jsLt s.maxIdx e.index = true
    · simp only [h1, if_true]
      exact jsLt_irrefl e.index
    · simp only [h1, Bool.false_eq_true, if_false]

theorem record_index_update_self (r : PhasorRecord) (k : String)
    (h : r.index = k) : ({ r with index := k } : PhasorRecord) = r := by
  subst h
  rfl

theorem updateIndexesLoop_spec :
    ∀ (ps : List (String × String)) (st : Store),
      (∀ p ∈ ps, (assocGet st p.2).isSome = true) →
      (ps.map (fun p => p.2)).Pairwise (fun a b => a ≠ b) →
      ∃ st', updateIndexesLoop st ps = .ok (st',
          ps.filterMap (fun p =>
            if (assocGet st p.2).map (fun r => r.index) = some p.1 then none
            else some (TxEvent.setIndex p.2 p.1))) ∧
        (∀ p ∈ ps, assocGet st' p.2 =
          (assocGet st p.2).map (fun r => { r with index := p.1 })) ∧
        (∀ id, (∀ p ∈ ps, ¬ p.2 = id) → assocGet st' id = assocGet st id) := by
  intro ps
  induction ps with
  | nil =>
      intro st _ _
      exact ⟨st, rfl, by simp, fun _ _ => rfl⟩
  | cons q ps ih =>
      obtain ⟨k, eid⟩ := q
      intro st hpres hdist
      have hq : (assocGet st eid).isSome = true :=
        hpres (k, eid) (List.mem_cons_self _ _)
      obtain ⟨r, hr⟩ := Option.isSome_iff_exists.mp hq
      have hdist2 : List.Pairwise (fun a b => a ≠ b)
          (eid :: ps.map (fun p => p.2)) := by simpa using hdist
      have hpc := List.pairwise_cons.mp hdist2
      have hhead : ∀ p ∈ ps, ¬ p.2 = eid := by
        intro p hp hpe
        exact (hpc.1 p.2 (List.mem_map_of_mem _ hp)) hpe.symm
      have hdist' : (ps.map (fun p => p.2)).Pairwise (fun a b => a ≠ b) :=
        hpc.2
      by_cases heq : r.index = k
      · obtain ⟨st', hloop, hmem, hother⟩ := ih st
          (fun p hp => hpres p (List.mem_cons_of_mem _ hp)) hdist'
      -- wait: skip branch recurses with the same store
        refine ⟨st', ?_, ?_, ?_⟩
        · show (match assocGet st eid with
            | none => Except.error "TypeError: yElement is undefined"
            | some r =>
                if r.index = k then updateIndexesLoop st ps
                else
                  match updateIndexesLoop
                      (assocSet st eid { r with index := k }) ps with
                  | .error e => Except.error e
                  | .ok (st', tr) =>
                      Except.ok (st', TxEvent.setIndex eid k :: tr)) = _
          simp only [hr]
          rw [if_pos heq, hloop]
          have hcond : (assocGet st eid).map (fun r => r.index) = some k := by
            rw [hr]
            simpa using heq
          simp only [List.filterMap_cons]
          rw [if_pos hcond]
        · intro p hp
          rcases List.mem_cons.mp hp with rfl | hp
          · rw [hother eid hhead, hr]
            exact congrArg some (record_index_update_self r k heq).symm
          · exact hmem p hp
        · intro id hid
          exact hother id (fun p hp => hid p (List.mem_cons_of_mem _ hp))
      · have hpres1 : ∀ p ∈ ps,
            (assocGet (assocSet st eid { r with index := k }) p.2).isSome
              = true := by
          intro p hp
          rw [assocGet_assocSet_ne st eid p.2 _
            (fun hh => hhead p hp hh.symm)]
          exact hpres p (List.mem_cons_of_mem _ hp)
        obtain ⟨st', hloop, hmem, hother⟩ :=
          ih (assocSet st eid { r with index := k }) hpres1 hdist'
        have htr : ps.filterMap (fun p =>
            if (assocGet (assocSet st eid { r with index := k }) p.2).map
                (fun r => r.index) = some p.1 then none
            else some (TxEvent.setIndex p.2 p.1)) =
          ps.filterMap (fun p =>
            if (assocGet st p.2).map (fun r => r.index) = some p.1 then none
            else some (TxEvent.setIndex p.2 p.1)) := by
          apply List.filterMap_congr
          intro p hp
          rw [assocGet_assocSet_ne st eid p.2 _
            (fun hh => hhead p hp hh.symm)]
        refine ⟨st', ?_, ?_, ?_⟩
        · show (match assocGet st eid with
            | none => Except.error "TypeError: yElement is undefined"
            | some r =>
                if r.index = k then updateIndexesLoop st ps
                else
                  match updateIndexesLoop
                      (assocSet st eid { r with index := k }) ps with
                  | .error e => Except.error e
                  | .ok (st', tr) =>
                      Except.ok (st', TxEvent.setIndex eid k :: tr)) = _
          simp only [hr]
          rw [if_neg heq]
          simp only [hloop]
          rw [htr]
          have hcond : ¬ (assocGet st eid).map (fun r => r.index) = some k := by
            rw [hr]
            simpa using heq
          simp only [List.filterMap_cons]
          rw [if_neg hcond]
        · intro p hp
          rcases List.mem_cons.mp hp with rfl | hp
          · rw [hother eid hhead, assocGet_assocSet_self, hr]
            rfl
          · rw [hmem p hp, assocGet_assocSet_ne st eid p.2 _
              (fun hh => hhead p hp hh.symm)]
        · intro id hid
          have hne : ¬ eid = id := hid (k, eid) (List.mem_cons_self _ _)
          rw [hother id (fun p hp => hid p (List.mem_cons_of_mem _ hp)),
              assocGet_assocSet_ne st eid id _ hne]

/-- C7: `updateIndexes(keys, elements, callback)` runs entirely inside one
transaction (the event trace is bracketed by a single `txBegin`/`txEnd`
pair); position `i` produces a `setIndex` write exactly when `keys[i]`
differs from the stored index of `elements[i]` (equal keys produce no
write); and `callback(keys)` is invoked exactly once, synchronously, after
all the key writes and before the transaction closes.  The store ends with
every `elements[i]` record's index equal to `keys[i]` and all other
records untouched. -/
theorem updateIndexes_single_tx_skips_equal_keys (keys : List String)
    (els : List PhasorRecord) (st : Store)
    (hlen : keys.length = els.length)
    (hpres : ∀ e ∈ els, (assocGet st e.id).isSome = true)
    (hdist : (els.map (fun e => e.id)).Pairwise (fun a b => a ≠ b)) :
    ∃ st', updateIndexes keys els st = .ok (st',
        TxEvent.txBegin ::
          ((keys.zip (els.map (fun e => e.id))).filterMap (fun p =>
            if (assocGet st p.2).map (fun r => r.index) = some p.1 then none
            else some (TxEvent.setIndex p.2 p.1))
          ++ [TxEvent.callbackCall keys, TxEvent.txEnd])) ∧
      (∀ p ∈ keys.zip (els.map (fun e => e.id)), assocGet st' p.2 =
        (assocGet st p.2).map (fun r => { r with index := p.1 })) ∧
      (∀ id, (∀ e ∈ els, ¬ e.id = id) → assocGet st' id = assocGet st id) := by
  have hps : ∀ p ∈ keys.zip (els.map (fun e => e.id)),
      (assocGet st p.2).isSome = true := by
    intro p hp
    rcases List.mem_map.mp (List.of_mem_zip hp).2 with ⟨e, he, hp2⟩
    rw [← hp2]
    exact hpres e he
  have hd : ((keys.zip (els.map (fun e => e.id))).map
      (fun p => p.2)).Pairwise (fun a b => a ≠ b) := by
    rw [List.map_snd_zip keys (els.map (fun e => e.id))
      (by rw [List.length_map, ← hlen])]
    exact hdist
  obtain ⟨st', hloop, hmem, hother⟩ :=
    updateIndexesLoop_spec (keys.zip (els.map (fun e => e.id))) st hps hd
  refine ⟨st', ?_, hmem, ?_⟩
  · unfold updateIndexes
    simp only [hloop]
    rw [List.cons_append]
  · intro id hid
    apply hother
    intro p hp hpid
    rcases List.mem_map.mp (List.of_mem_zip hp).2 with ⟨e, he, hp2⟩
    exact hid e he (by rw [hp2, hpid])

theorem jsLe_trans {a b c : String} (h1 : jsLe a b = true)
    (h2 : jsLe b c = true) : jsLe a c = true := by
  simp only [jsLe, Bool.not_eq_true'] at h1 h2 ⊢
  exact jsLt_false_trans h2 h1

theorem jsLe_total (a b : String) : (jsLe a b || jsLe b a) = true := by
  cases hv : jsLt b a with
  | false => simp [jsLe, hv]
  | true => simp [jsLe, hv, jsLt_asymm hv]

theorem jsLt_of_jsLe_of_ne {a b : String} (h : jsLe a b = true)
    (hne : a ≠ b) : jsLt a b = true := by
  simp only [jsLe, Bool.not_eq_true'] at h
  rcases jsLt_eq_or_gt h with rfl | h'
  · exact absurd rfl hne
  · exact h'

theorem isEmpty_false_of_mem {l : List String} {a : String} (h : a ∈ l) :
    l.isEmpty = false := by
  cases l with
  | nil => cases h
  | cons x xs => rfl

theorem pairwise_getLast_ge {α : Type} {R : α → α → Prop} :
    ∀ {l : List α} {x : α}, l.Pairwise R → l.getLast? = some x →
      ∀ y ∈ l, y = x ∨ R y x := by
  intro l
  induction l with
  | nil =>
      intro x _ h
      simp at h
  | cons a l ih =>
      intro x hp hl y hy
      cases l with
      | nil =>
          simp at hl hy
          subst hl
          exact Or.inl hy
      | cons b bs =>
          rw [List.getLast?_cons_cons] at hl
          rcases List.mem_cons.mp hy with rfl | hy
          · refine Or.inr ?_
            have hx : x ∈ b :: bs := by
              rcases List.getLast?_eq_some_iff.mp hl with ⟨ys, hys⟩
              rw [hys]
              simp
            exact (List.pairwise_cons.mp hp).1 x hx
          · exact ih (List.pairwise_cons.mp hp).2 hl y hy

theorem mem_pickByPoint {els : List GridElement}
    {hit : GridElement → Int → Int → Bool} {x y : Int} {e : GridElement}
    (h : e ∈ pickByPoint els hit x y) : e ∈ els ∧ hit e x y = true := by
  unfold pickByPoint gridSearch at h
  obtain ⟨hm, hh⟩ := List.mem_filter.mp h
  exact ⟨(List.mem_filter.mp (List.mem_mergeSort.mp hm)).1, hh⟩

theorem pickByPoint_mem {els : List GridElement}
    {hit : GridElement → Int → Int → Bool} {x y : Int} {e : GridElement}
    (he : e ∈ els) (hh : hit e x y = true)
    (hb : pointInBound e.bound x y = true) : e ∈ pickByPoint els hit x y := by
  unfold pickByPoint gridSearch
  refine List.mem_filter.mpr ⟨?_, hh⟩
  refine List.mem_mergeSort.mpr (List.mem_filter.mpr ⟨he, ?_⟩)
  simp only [pointInBound, boundIntersects, Bool.and_eq_true,
    decide_eq_true_eq] at hb ⊢
  omega

theorem pickByPoint_sorted (els : List GridElement)
    (hit : GridElement → Int → Int → Bool) (x y : Int) :
    (pickByPoint els hit x y).Pairwise
      (fun a b => jsLe a.index b.index = true) := by
  unfold pickByPoint gridSearch
  exact List.Pairwise.filter _
    (@List.sorted_mergeSort GridElement (fun a b => jsLe a.index b.index)
      (fun a b c hab hbc => jsLe_trans hab hbc)
      (fun a b => jsLe_total a.index b.index)
      (List.filter (fun e => boundIntersects ⟨x - 1, y - 1, 2, 2⟩ e.bound)
        els))

/-- C6: `pickTop(x, y)` returns the element with the highest order key
among all live elements whose precise hit test passes at `(x, y)`, and
`null` when no element's hit test passes there.  Hypotheses: live order
keys are pairwise distinct (so "the highest" is well defined), and a
passing hit test implies the point lies in the element's bound (the hit
test is shape-accurate containment). -/
theorem pickTop_highest_key (els : List GridElement)
    (hit : GridElement → Int → Int → Bool) (x y : Int)
    (hinj : (els.map (fun e => e.index)).Pairwise (fun a b => a ≠ b))
    (hhit : ∀ e ∈ els, hit e x y = true → pointInBound e.bound x y = true) :
    (pickTop els hit x y = none ↔ ∀ e ∈ els, hit e x y = false) ∧
    (∀ e, pickTop els hit x y = some e →
      e ∈ els ∧ hit e x y = true ∧
      ∀ e' ∈ els, hit e' x y = true → e' ≠ e →
        jsLt e'.index e.index = true) := by
  constructor
  · constructor
    · intro h e he
      rw [pickTop, List.getLast?_eq_none_iff] at h
      cases hv : hit e x y with
      | false => rfl
      | true =>
          have := pickByPoint_mem he hv (hhit e he hv)
          rw [h] at this
          exact absurd this (List.not_mem_nil e)
    · intro h
      rw [pickTop, List.getLast?_eq_none_iff]
      cases hl : pickByPoint els hit x y with
      | nil => rfl
      | cons a l =>
          exfalso
          have ha := mem_pickByPoint (hl ▸ List.mem_cons_self a l)
          rw [h a ha.1] at ha
          exact Bool.false_ne_true ha.2
  · intro e he
    have hmem : e ∈ pickByPoint els hit x y := by
      rw [pickTop] at he
      rcases List.getLast?_eq_some_iff.mp he with ⟨ys, hys⟩
      rw [hys]
      simp
    obtain ⟨hel, hhite⟩ := mem_pickByPoint hmem
    refine ⟨hel, hhite, ?_⟩
    intro e' he' hh' hne
    have hmem' : e' ∈ pickByPoint els hit x y :=
      pickByPoint_mem he' hh' (hhit e' he' hh')
    have hge := pairwise_getLast_ge (pickByPoint_sorted els hit x y)
      he e' hmem'
    rcases hge with rfl | hle
    · exact absurd rfl hne
    · apply jsLt_of_jsLe_of_ne hle
      exact List.Pairwise.forall (fun p q hpq => hpq.symm)
        (List.pairwise_map.mp hinj) he' hel hne

theorem lookupLast_append (l1 l2 : List (String × PropVal)) (k : String) :
    lookupLast (l1 ++ l2) k =
      match lookupLast l2 k with
      | some w => some w
      | none => lookupLast l1 k := by
  induction l1 with
  | nil =>
      simp only [List.nil_append, lookupLast]
      cases lookupLast l2 k <;> rfl
  | cons a l1 ih =>
      obtain ⟨a1, a2⟩ := a
      rw [List.cons_append]
      show (match lookupLast (l1 ++ l2) k with
        | some w => some w
        | none => if a1 = k then some a2 else none) = _
      rw [ih]
      show (match (match lookupLast l2 k with
            | some w => some w
            | none => lookupLast l1 k) with
        | some w => some w
        | none => if a1 = k then some a2 else none) =
        (match lookupLast l2 k with
        | some w => some w
        | none => match lookupLast l1 k with
            | some w => some w
            | none => if a1 = k then some a2 else none)
      cases lookupLast l2 k with
      | some w => rfl
      | none =>
          cases lookupLast l1 k with
          | some w => rfl
          | none => rfl

theorem lookupLast_manager_triple_ne (genId maxIdx : String) (genSeed : Int)
    (keyAfter : String → String) (k : String) (h1 : ¬ k = "id")
    (h2 : ¬ k = "index") (h3 : ¬ k = "seed") :
    lookupLast [("id", PropVal.str genId),
      ("index", PropVal.str (keyAfter maxIdx)),
      ("seed", PropVal.num genSeed)] k = none := by
  simp only [lookupLast]
  rw [if_neg (fun h => h3 h.symm), if_neg (fun h => h2 h.symm),
      if_neg (fun h => h1 h.symm)]

/-- C9: in `addElement`, caller-supplied properties override the type's
defaults, but the manager-assigned fields always win over both: the
stored record's `id`, `index` and `seed` are the generated id, the key
after the current max, and the fresh seed, even if the caller supplies
values for them; every other key resolves to the caller's value when
present, else the default; and (structurally) the record is stored in the
container under the generated id and `addElement` returns that id. -/
theorem addElement_manager_fields_win
    (defaultProps callerProps : List (String × PropVal))
    (genId maxIdx : String) (genSeed : Int) (keyAfter : String → String) :
    lookupLast (addElementProps defaultProps callerProps genId maxIdx
        genSeed keyAfter) "id" = some (PropVal.str genId) ∧
    lookupLast (addElementProps defaultProps callerProps genId maxIdx
        genSeed keyAfter) "index" = some (PropVal.str (keyAfter maxIdx)) ∧
    lookupLast (addElementProps defaultProps callerProps genId maxIdx
        genSeed keyAfter) "seed" = some (PropVal.num genSeed) ∧
    (∀ k, ¬ k = "id" → ¬ k = "index" → ¬ k = "seed" →
      lookupLast (addElementProps defaultProps callerProps genId maxIdx
          genSeed keyAfter) k =
        match lookupLast callerProps k with
        | some v => some v
        | none => lookupLast defaultProps k) ∧
    (∀ (ka : String → String) (s : SurfaceState) (c : AddCall),
      (addElement ka s c).2 = c.id ∧
      (assocGet (addElement ka s c).1.yContainer c.id).map (fun r => r.id)
        = some c.id) := by
  refine ⟨?_, ?_, ?_, ?_, ?_⟩
  · rw [addElementProps, List.append_assoc, lookupLast_append,
        lookupLast_append]
    rfl
  · rw [addElementProps, List.append_assoc, lookupLast_append,
        lookupLast_append]
    rfl
  · rw [addElementProps, List.append_assoc, lookupLast_append,
        lookupLast_append]
    rfl
  · intro k h1 h2 h3
    rw [addElementProps, List.append_assoc, lookupLast_append,
        lookupLast_append,
        lookupLast_manager_triple_ne genId maxIdx genSeed keyAfter k h1 h2 h3]
  · intro ka s c
    refine ⟨rfl, ?_⟩
    rw [show (addElement ka s c).1.yContainer = assocSet s.yContainer c.id
        ⟨c.id, c.rtype, ka s.maxIdx, c.seed, c.startElement, c.endElement⟩
      from rfl]
    rw [assocGet_assocSet_self]
    rfl

theorem filterMap_erase_none {β : Type} (f : String → Option β)
    (cid : String) (hf : f cid = none) :
    ∀ l : List String,
      l.filterMap f = (l.filter (fun b => ¬ b = cid)).filterMap f := by
  intro l
  induction l with
  | nil => rfl
  | cons a l ih =>
      by_cases ha : a = cid
      · subst ha
        rw [List.filterMap_cons, hf, List.filter_cons, if_neg (by simp)]
        exact ih
      · rw [List.filterMap_cons, List.filter_cons,
            if_pos (by simpa using ha), List.filterMap_cons]
        cases f a with
        | none => exact ih
        | some b => rw [ih]

/-- C2 (amended): once a connector's wrapper has been evicted from the
cache, its id contributes nothing to any `getBindingElements` result —
erasing the id from the queried binding set does not change the result
(the dangling id is dropped by the query-time filter).  The binding-graph
entries themselves are never removed (see the counterexample). -/
theorem getBindingElements_drops_evicted (s : SurfaceState) (x cid : String)
    (h : assocGet s.elements cid = none) :
    getBindingElements s x =
      (((assocGet s.bindings x).getD []).filter
        (fun b => ¬ b = cid)).filterMap (fun b => assocGet s.elements b) := by
  unfold getBindingElements
  cases hb : assocGet s.bindings x with
  | none => simp
  | some bids =>
      simp only [Option.getD_some]
      by_cases he : bids.isEmpty = true
      · rw [if_pos he]
        rw [show bids = [] from by
          cases bids with
          | nil => rfl
          | cons a l => simp at he]
        rfl
      · rw [if_neg he]
        exact filterMap_erase_none _ cid h bids

/-- C2 (counterexample): concrete run — shape `e1`, connector `c` bound to
it; `c`'s delete notification is processed, then one further full
event-processing step runs; the binding graph still holds both directed
entries referencing `"c"` (they persist indefinitely), refuting "no entry
of the binding graph references the connector's id for longer than one
event-processing step"; the query-time filter nevertheless hides them. -/
theorem binding_edges_persist_after_delete :
    ((((mkSurfaceManager
        [("e1", ⟨"e1", "shape", "a1", 1, none, none⟩),
         ("c", ⟨"c", "connector", "a2", 2, some "e1", none⟩)]).toOption.bind
      (fun s0 => (processBatch specKeyAfter (removeElement s0 "c")
          [("c", some YAction.delete)]).toOption)).bind
      (fun s1 => (processBatch specKeyAfter s1
          [("x", some YAction.update)]).toOption)).map
      (fun s2 => ((pickById s2 "c").isNone,
        ((assocGet s2.bindings "e1").getD []).contains "c",
        (assocGet s2.bindings "c").isSome,
        getBindingElements s2 "e1")))
    = some (true, true, true, []) := by decide

theorem getBindingElements_eq_none (s : SurfaceState) (x : String)
    (hb : assocGet s.bindings x = none) : getBindingElements s x = [] := by
  unfold getBindingElements
  rw [hb]

theorem getBindingElements_eq_some (s : SurfaceState) (x : String)
    (bids : List String) (hb : assocGet s.bindings x = some bids) :
    getBindingElements s x =
      if bids.isEmpty = true then []
      else bids.filterMap (fun b => assocGet s.elements b) := by
  unfold getBindingElements
  rw [hb]

theorem getBindingElements_all_cached (s : SurfaceState) (x : String)
    (e : PhasorRecord) (h : e ∈ getBindingElements s x) :
    ∃ k, assocGet s.elements k = some e := by
  cases hb : assocGet s.bindings x with
  | none =>
      rw [getBindingElements_eq_none s x hb] at h
      simp at h
  | some bids =>
      rw [getBindingElements_eq_some s x bids hb] at h
      by_cases he : bids.isEmpty = true
      · rw [if_pos he] at h
        simp at h
      · rw [if_neg he] at h
        rcases List.mem_filterMap.mp h with ⟨b, _, hbe⟩
        exact ⟨b, hbe⟩

theorem filterMap_nil_of_all_none {β : Type} (f : String → Option β) :
    ∀ l : List String, (∀ a ∈ l, f a = none) → l.filterMap f = []
  | [], _ => rfl
  | a :: l, h => by
      rw [List.filterMap_cons, h a (List.mem_cons_self a l)]
      exact filterMap_nil_of_all_none f l
        (fun b hb => h b (List.mem_cons_of_mem a hb))

theorem getBindingElements_nil_of_dangling (s : SurfaceState) (x : String)
    (h : ∀ bid ∈ (assocGet s.bindings x).getD [],
      assocGet s.elements bid = none) :
    getBindingElements s x = [] := by
  cases hb : assocGet s.bindings x with
  | none => exact getBindingElements_eq_none s x hb
  | some bids =>
      rw [getBindingElements_eq_some s x bids hb]
      rw [hb] at h
      simp only [Option.getD_some] at h
      by_cases he : bids.isEmpty = true
      · rw [if_pos he]
      · rw [if_neg he]
        exact filterMap_nil_of_all_none _ bids h

/-- C5: `getBindingElements` is symmetric and drops dangling ids.  When a
connector record `r` (id `cid`, resolved endpoints `a` and `b`, both live)
is mounted by an `add` notification, the resulting state answers
`getBindingElements cid` with the endpoint wrappers and
`getBindingElements a` / `getBindingElements b` with the connector
wrapper; and in any state, `getBindingElements` only returns wrappers
present in the cache, yielding `[]` when every bound id is dangling. -/
theorem getBindingElements_symmetric_and_filtered (ka : String → String)
    (s0 : SurfaceState) (cid a b : String) (r wa wb : PhasorRecord)
    (s1 : SurfaceState)
    (hr : assocGet s0.yContainer cid = some r) (hrid : r.id = cid)
    (hconn : isConnector r = true)
    (hstart : r.startElement = some a) (hend : r.endElement = some b)
    (hane : ¬ a = cid) (hbne : ¬ b = cid)
    (hwa : assocGet s0.elements a = some wa)
    (hwb : assocGet s0.elements b = some wb)
    (hrun : processEntry ka s0 cid (some YAction.add) = .ok s1) :
    wa ∈ getBindingElements s1 cid ∧ wb ∈ getBindingElements s1 cid ∧
    r ∈ getBindingElements s1 a ∧ r ∈ getBindingElements s1 b ∧
    (∀ (s : SurfaceState) (x : String) (e : PhasorRecord),
      e ∈ getBindingElements s x → ∃ k, assocGet s.elements k = some e) ∧
    (∀ (s : SurfaceState) (x : String),
      (∀ bid ∈ (assocGet s.bindings x).getD [],
        assocGet s.elements bid = none) →
      getBindingElements s x = []) := by
  have hT : knownType r.rtype = true := by
    have hc : r.rtype = "connector" := by simpa [isConnector] using hconn
    rw [hc]
    rfl
  rw [processEntry_add_eq ka s0 cid r hr hT] at hrun
  injection hrun with hrun
  subst hrun
  obtain ⟨⟨sc, hsc, hac, hbc⟩, ⟨sa, hsa, hca⟩, ⟨sb, hsb, hcb⟩⟩ :=
    updateBindings_conn_mem s0.bindings r hconn a b hstart hend
  rw [hrid] at hsc hca hcb
  have hgets : ∀ w v, ¬ w = cid → assocGet s0.elements w = some v →
      assocGet (assocSet s0.elements r.id r) w = some v := by
    intro w v hw hv
    rw [hrid, assocGet_assocSet_ne s0.elements cid w r
      (fun hh => hw hh.symm)]
    exact hv
  have hgetc : assocGet (assocSet s0.elements r.id r) cid = some r := by
    rw [hrid]
    exact assocGet_assocSet_self s0.elements cid r
  refine ⟨?_, ?_, ?_, ?_,
    fun s x e h => getBindingElements_all_cached s x e h,
    fun s x h => getBindingElements_nil_of_dangling s x h⟩
  · rw [getBindingElements_eq_some _ cid sc hsc,
        if_neg (by rw [isEmpty_false_of_mem hac]; simp)]
    exact List.mem_filterMap.mpr ⟨a, hac, hgets a wa hane hwa⟩
  · rw [getBindingElements_eq_some _ cid sc hsc,
        if_neg (by rw [isEmpty_false_of_mem hac]; simp)]
    exact List.mem_filterMap.mpr ⟨b, hbc, hgets b wb hbne hwb⟩
  · rw [getBindingElements_eq_some _ a sa hsa,
        if_neg (by rw [isEmpty_false_of_mem hca]; simp)]
    exact List.mem_filterMap.mpr ⟨cid, hca, hgetc⟩
  · rw [getBindingElements_eq_some _ b sb hsb,
        if_neg (by rw [isEmpty_false_of_mem hcb]; simp)]
    exact List.mem_filterMap.mpr ⟨cid, hcb, hgetc⟩

/-- C8: a change-batch entry whose action is `update`, and an entry with
no resolvable action, are each skipped: deleting such an entry from any
batch does not change the handler's result, so the element cache, the
binding graph and the order bounds are left exactly as they were before
the entry was processed (the `console.error` logging is outside the state
model). -/
theorem handler_skips_update_and_invalid_entries (ka : String → String)
    (s : SurfaceState) (id : String)
    (l1 l2 : List (String × Option YAction)) :
    processBatch ka s (l1 ++ (id, some YAction.update) :: l2) =
      processBatch ka s (l1 ++ l2) ∧
    processBatch ka s (l1 ++ (id, none) :: l2) =
      processBatch ka s (l1 ++ l2) :=
  ⟨processBatch_skip_mid ka (id, some YAction.update) (fun _ => rfl) l1 s l2,
   processBatch_skip_mid ka (id, none) (fun _ => rfl) l1 s l2⟩

/-- C10: a `delete` change-batch entry for an id with no cached wrapper is
not skipped — `assertExists(element)` throws, aborting the handler for
that entry (and the rest of the batch), instead of degrading silently. -/
theorem delete_unknown_id_fails_assertion (ka : String → String)
    (s : SurfaceState) (id : String)
    (h : assocGet s.elements id = none) :
    processEntry ka s id (some YAction.delete) =
      .error "assertExists: element" ∧
    ∀ rest, processBatch ka s ((id, some YAction.delete) :: rest) =
      .error "assertExists: element" :=
  ⟨processEntry_delete_missing ka s id h,
   fun rest => processBatch_cons_error ka s (id, some YAction.delete) rest _
     (processEntry_delete_missing ka s id h)⟩

/-- C1 (code-bug evaluation at the failing input): elements `A` (key
`"a0"`, the current min) and `B` (key `"a01"`); after `removeElement("A")`
and its delete notification, `hasElement "A"` is false and `pickById "A"`
is `none` as claimed, but the regenerated `min` is
`generateKeyBetween("a0", null) = "a0V"` — a key strictly AFTER the
removed key — and the surviving element `B`'s key `"a01"` is strictly
BELOW the new min, refuting "the regenerated `indexes.min` is a key
strictly less than the order key of every surviving live element". -/
theorem removeElement_min_regeneration_bug :
    ((mkSurfaceManager
        [("A", ⟨"A", "shape", "a0", 1, none, none⟩),
         ("B", ⟨"B", "shape", "a01", 2, none, none⟩)]).toOption.bind
      (fun s0 => (processBatch specKeyAfter (removeElement s0 "A")
          [("A", some YAction.delete)]).toOption)).map
      (fun s' => (hasElement s' "A", (pickById s' "A").isNone,
        (pickById s' "B").map (fun e => e.index), s'.minIdx,
        jsLt "a01" s'.minIdx))
    = some (false, true, some "a01", "a0V", true) := by decide

/-- C4 (counterexample): a remote `add` notification carrying an order key
below the current `min` (here `"Q" < "a0"`) leaves `min` unchanged — the
add path only expands `max` — so the freshly mounted element violates
`min ≤ index`, refuting the claimed invariant at a quiescent point. -/
theorem remote_add_below_min_breaks_invariant :
    ((mkSurfaceManager
        [("A", ⟨"A", "shape", "a0", 1, none, none⟩)]).toOption.bind
      (fun s0 => (processBatch specKeyAfter
          { s0 with yContainer := (assocSet s0.yContainer "B"
              ⟨"B", "shape", "Q", 2, none, none⟩) }
          [("B", some YAction.add)]).toOption)).map
      (fun s' => ((pickById s' "B").map (fun e => e.index), s'.minIdx,
        jsLt "Q" s'.minIdx))
    = some (some "Q", "a0", true) := by decide

/-- C4 (amended): after construction's initial scan every cached element
satisfies `min ≤ index ≤ max`; and a processed `add` entry preserves the
invariant and never changes `min` (adds only expand `max`) provided the
added record's key is not below the current `min` — a remote add with a
key below `min` violates the lower bound (see the counterexample). -/
theorem bounds_invariant_amended :
    (∀ (c : Store) (s' : SurfaceState),
      mkSurfaceManager c = .ok s' → boundsInv s') ∧
    (∀ (ka : String → String) (s : SurfaceState) (id : String)
        (e : PhasorRecord) (s' : SurfaceState),
      boundsInv s → assocGet s.yContainer id = some e →
      knownType e.rtype = true → jsLt e.index s.minIdx = false →
      processEntry ka s id (some YAction.add) = .ok s' →
      boundsInv s' ∧ s'.minIdx = s.minIdx) :=
  ⟨fun c s' h => (mkSurfaceManager_boundsInv c s' h).1,
   fun ka s id e s' hInv hget hT hge h =>
     add_entry_preserves_boundsInv ka s id e s' hInv hget hT hge h⟩

/-- Witness for C3 at a concrete manager and two concrete calls. -/
theorem addElement_keys_strictly_increasing_witness :
    ∃ s' keys, runAdds specKeyAfter ⟨[], [], [], "a0", "a0"⟩
        [⟨"A", "shape", 1, none, none⟩, ⟨"B", "shape", 2, none, none⟩]
        = .ok (s', keys) ∧
      keys.length = ([⟨"A", "shape", 1, none, none⟩,
        ⟨"B", "shape", 2, none, none⟩] : List AddCall).length ∧
      List.Pairwise (fun a b => jsLt a b = true) keys ∧
      (∀ k ∈ keys, jsLt "a0" k = true) ∧
      (∀ k, keys.getLast? = some k →
        s'.maxIdx = k) ∧
      (keys = [] → s'.maxIdx = "a0") :=
  addElement_keys_strictly_increasing specKeyAfter jsLt_specKeyAfter
    ⟨[], [], [], "a0", "a0"⟩
    [⟨"A", "shape", 1, none, none⟩, ⟨"B", "shape", 2, none, none⟩]
    (by decide)

/-- Witness for C6: two overlapping elements, probe at `(7, 7)`. -/
theorem pickTop_highest_key_witness :
    (pickTop [⟨"e1", "a1", ⟨0, 0, 10, 10⟩⟩, ⟨"e2", "a2", ⟨5, 5, 10, 10⟩⟩]
        (fun e px py => pointInBound e.bound px py) 7 7 = none ↔
      ∀ e ∈ ([⟨"e1", "a1", ⟨0, 0, 10, 10⟩⟩,
          ⟨"e2", "a2", ⟨5, 5, 10, 10⟩⟩] : List GridElement),
        pointInBound e.bound 7 7 = false) ∧
    (∀ e, pickTop [⟨"e1", "a1", ⟨0, 0, 10, 10⟩⟩,
        ⟨"e2", "a2", ⟨5, 5, 10, 10⟩⟩]
        (fun e px py => pointInBound e.bound px py) 7 7 = some e →
      e ∈ ([⟨"e1", "a1", ⟨0, 0, 10, 10⟩⟩,
          ⟨"e2", "a2", ⟨5, 5, 10, 10⟩⟩] : List GridElement) ∧
      pointInBound e.bound 7 7 = true ∧
      ∀ e' ∈ ([⟨"e1", "a1", ⟨0, 0, 10, 10⟩⟩,
          ⟨"e2", "a2", ⟨5, 5, 10, 10⟩⟩] : List GridElement),
        pointInBound e'.bound 7 7 = true → e' ≠ e →
          jsLt e'.index e.index = true) :=
  pickTop_highest_key
    [⟨"e1", "a1", ⟨0, 0, 10, 10⟩⟩, ⟨"e2", "a2", ⟨5, 5, 10, 10⟩⟩]
    (fun e px py => pointInBound e.bound px py) 7 7
    (by decide) (fun _ _ h => h)

/-- Witness for C7: two records, one differing key (written) and one
equal key (skipped). -/
theorem updateIndexes_single_tx_witness :
    ∃ st', updateIndexes ["b0", "a1"]
        [⟨"A", "shape", "a0", 1, none, none⟩,
         ⟨"B", "shape", "a1", 2, none, none⟩]
        [("A", ⟨"A", "shape", "a0", 1, none, none⟩),
         ("B", ⟨"B", "shape", "a1", 2, none, none⟩)] = .ok (st',
        TxEvent.txBegin ::
          ((["b0", "a1"].zip
            (([⟨"A", "shape", "a0", 1, none, none⟩,
               ⟨"B", "shape", "a1", 2, none, none⟩] :
                List PhasorRecord).map (fun e => e.id))).filterMap (fun p =>
            if (assocGet ([("A", ⟨"A", "shape", "a0", 1, none, none⟩),
                ("B", ⟨"B", "shape", "a1", 2, none, none⟩)] : Store) p.2).map
                (fun r => r.index) = some p.1 then none
            else some (TxEvent.setIndex p.2 p.1))
          ++ [TxEvent.callbackCall ["b0", "a1"], TxEvent.txEnd])) ∧
      (∀ p ∈ ["b0", "a1"].zip
          (([⟨"A", "shape", "a0", 1, none, none⟩,
             ⟨"B", "shape", "a1", 2, none, none⟩] :
              List PhasorRecord).map (fun e => e.id)),
        assocGet st' p.2 =
          (assocGet ([("A", ⟨"A", "shape", "a0", 1, none, none⟩),
            ("B", ⟨"B", "shape", "a1", 2, none, none⟩)] : Store) p.2).map
            (fun r => { r with index := p.1 })) ∧
      (∀ id, (∀ e ∈ ([⟨"A", "shape", "a0", 1, none, none⟩,
          ⟨"B", "shape", "a1", 2, none, none⟩] : List PhasorRecord),
          ¬ e.id = id) →
        assocGet st' id =
          assocGet ([("A", ⟨"A", "shape", "a0", 1, none, none⟩),
            ("B", ⟨"B", "shape", "a1", 2, none, none⟩)] : Store) id) :=
  updateIndexes_single_tx_skips_equal_keys ["b0", "a1"]
    [⟨"A", "shape", "a0", 1, none, none⟩,
     ⟨"B", "shape", "a1", 2, none, none⟩]
    [("A", ⟨"A", "shape", "a0", 1, none, none⟩),
     ("B", ⟨"B", "shape", "a1", 2, none, none⟩)]
    rfl (by decide) (by decide)

/-- Witness for C10 at a concrete empty manager. -/
theorem delete_unknown_id_fails_assertion_witness :
    processEntry specKeyAfter ⟨[], [], [], "a0", "a0"⟩ "z"
        (some YAction.delete) = .error "assertExists: element" ∧
    ∀ rest, processBatch specKeyAfter ⟨[], [], [], "a0", "a0"⟩
        (("z", some YAction.delete) :: rest) =
      .error "assertExists: element" :=
  delete_unknown_id_fails_assertion specKeyAfter
    ⟨[], [], [], "a0", "a0"⟩ "z" rfl

/-- Witness for C5: a connector `c` with endpoints `e1`, `e2`, mounted by
its add notification. -/
theorem getBindingElements_symmetric_witness :
    (⟨"e1", "shape", "a1", 1, none, none⟩ : PhasorRecord) ∈
      getBindingElements
        ⟨[("e1", ⟨"e1", "shape", "a1", 1, none, none⟩),
          ("e2", ⟨"e2", "shape", "a2", 2, none, none⟩),
          ("c", ⟨"c", "connector", "a3", 3, some "e1", some "e2"⟩)],
         [("e1", ⟨"e1", "shape", "a1", 1, none, none⟩),
          ("e2", ⟨"e2", "shape", "a2", 2, none, none⟩),
          ("c", ⟨"c", "connector", "a3", 3, some "e1", some "e2"⟩)],
         [("e1", ["c"]), ("c", ["e1", "e2"]), ("e2", ["c"])],
         "a1", "a3"⟩ "c" ∧
    (⟨"e2", "shape", "a2", 2, none, none⟩ : PhasorRecord) ∈
      getBindingElements
        ⟨[("e1", ⟨"e1", "shape", "a1", 1, none, none⟩),
          ("e2", ⟨"e2", "shape", "a2", 2, none, none⟩),
          ("c", ⟨"c", "connector", "a3", 3, some "e1", some "e2"⟩)],
         [("e1", ⟨"e1", "shape", "a1", 1, none, none⟩),
          ("e2", ⟨"e2", "shape", "a2", 2, none, none⟩),
          ("c", ⟨"c", "connector", "a3", 3, some "e1", some "e2"⟩)],
         [("e1", ["c"]), ("c", ["e1", "e2"]), ("e2", ["c"])],
         "a1", "a3"⟩ "c" ∧
    (⟨"c", "connector", "a3", 3, some "e1", some "e2"⟩ : PhasorRecord) ∈
      getBindingElements
        ⟨[("e1", ⟨"e1", "shape", "a1", 1, none, none⟩),
          ("e2", ⟨"e2", "shape", "a2", 2, none, none⟩),
          ("c", ⟨"c", "connector", "a3", 3, some "e1", some "e2"⟩)],
         [("e1", ⟨"e1", "shape", "a1", 1, none, none⟩),
          ("e2", ⟨"e2", "shape", "a2", 2, none, none⟩),
          ("c", ⟨"c", "connector", "a3", 3, some "e1", some "e2"⟩)],
         [("e1", ["c"]), ("c", ["e1", "e2"]), ("e2", ["c"])],
         "a1", "a3"⟩ "e1" ∧
    (⟨"c", "connector", "a3", 3, some "e1", some "e2"⟩ : PhasorRecord) ∈
      getBindingElements
        ⟨[("e1", ⟨"e1", "shape", "a1", 1, none, none⟩),
          ("e2", ⟨"e2", "shape", "a2", 2, none, none⟩),
          ("c", ⟨"c", "connector", "a3", 3, some "e1", some "e2"⟩)],
         [("e1", ⟨"e1", "shape", "a1", 1, none, none⟩),
          ("e2", ⟨"e2", "shape", "a2", 2, none, none⟩),
          ("c", ⟨"c", "connector", "a3", 3, some "e1", some "e2"⟩)],
         [("e1", ["c"]), ("c", ["e1", "e2"]), ("e2", ["c"])],
         "a1", "a3"⟩ "e2" ∧
    (∀ (s : SurfaceState) (x : String) (e : PhasorRecord),
      e ∈ getBindingElements s x → ∃ k, assocGet s.elements k = some e) ∧
    (∀ (s : SurfaceState) (x : String),
      (∀ bid ∈ (assocGet s.bindings x).getD [],
        assocGet s.elements bid = none) →
      getBindingElements s x = []) :=
  getBindingElements_symmetric_and_filtered specKeyAfter
    ⟨[("e1", ⟨"e1", "shape", "a1", 1, none, none⟩),
      ("e2", ⟨"e2", "shape", "a2", 2, none, none⟩),
      ("c", ⟨"c", "connector", "a3", 3, some "e1", some "e2"⟩)],
     [("e1", ⟨"e1", "shape", "a1", 1, none, none⟩),
      ("e2", ⟨"e2", "shape", "a2", 2, none, none⟩)],
     [], "a1", "a2"⟩
    "c" "e1" "e2"
    ⟨"c", "connector", "a3", 3, some "e1", some "e2"⟩
    ⟨"e1", "shape", "a1", 1, none, none⟩
    ⟨"e2", "shape", "a2", 2, none, none⟩
    ⟨[("e1", ⟨"e1", "shape", "a1", 1, none, none⟩),
      ("e2", ⟨"e2", "shape", "a2", 2, none, none⟩),
      ("c", ⟨"c", "connector", "a3", 3, some "e1", some "e2"⟩)],
     [("e1", ⟨"e1", "shape", "a1", 1, none, none⟩),
      ("e2", ⟨"e2", "shape", "a2", 2, none, none⟩),
      ("c", ⟨"c", "connector", "a3", 3, some "e1", some "e2"⟩)],
     [("e1", ["c"]), ("c", ["e1", "e2"]), ("e2", ["c"])],
     "a1", "a3"⟩
    rfl rfl rfl rfl rfl (by decide) (by decide) rfl rfl rfl

/-- Witness for the amended C2 at the post-delete state of the
counterexample scenario. -/
theorem getBindingElements_drops_evicted_witness :
    getBindingElements
      ⟨[("e1", ⟨"e1", "shape", "a1", 1, none, none⟩)],
       [("e1", ⟨"e1", "shape", "a1", 1, none, none⟩)],
       [("e1", ["c"]), ("c", ["e1"])], "a0", "a2"⟩ "e1" =
      (((assocGet
        (⟨[("e1", ⟨"e1", "shape", "a1", 1, none, none⟩)],
          [("e1", ⟨"e1", "shape", "a1", 1, none, none⟩)],
          [("e1", ["c"]), ("c", ["e1"])], "a0", "a2"⟩ :
            SurfaceState).bindings "e1").getD []).filter
        (fun b => ¬ b = "c")).filterMap
        (fun b => assocGet
          (⟨[("e1", ⟨"e1", "shape", "a1", 1, none, none⟩)],
            [("e1", ⟨"e1", "shape", "a1", 1, none, none⟩)],
            [("e1", ["c"]), ("c", ["e1"])], "a0", "a2"⟩ :
              SurfaceState).elements b) :=
  getBindingElements_drops_evicted
    ⟨[("e1", ⟨"e1", "shape", "a1", 1, none, none⟩)],
     [("e1", ⟨"e1", "shape", "a1", 1, none, none⟩)],
     [("e1", ["c"]), ("c", ["e1"])], "a0", "a2"⟩ "e1" "c" rfl

/-- Witness for the amended C4: part one at a one-record container, part
two at a local-style add with key `"a1" ≥ min`. -/
theorem bounds_invariant_amended_witness :
    boundsInv ⟨[("A", ⟨"A", "shape", "a0", 1, none, none⟩)],
      [("A", ⟨"A", "shape", "a0", 1, none, none⟩)], [], "a0", "a0"⟩ ∧
    (boundsInv ⟨[("A", ⟨"A", "shape", "a0", 1, none, none⟩),
        ("B", ⟨"B", "shape", "a1", 2, none, none⟩)],
      [("A", ⟨"A", "shape", "a0", 1, none, none⟩),
       ("B", ⟨"B", "shape", "a1", 2, none, none⟩)], [], "a0", "a1"⟩ ∧
      (⟨[("A", ⟨"A", "shape", "a0", 1, none, none⟩),
          ("B", ⟨"B", "shape", "a1", 2, none, none⟩)],
        [("A", ⟨"A", "shape", "a0", 1, none, none⟩),
         ("B", ⟨"B", "shape", "a1", 2, none, none⟩)], [], "a0", "a1"⟩ :
          SurfaceState).minIdx =
        (⟨[("A", ⟨"A", "shape", "a0", 1, none, none⟩),
            ("B", ⟨"B", "shape", "a1", 2, none, none⟩)],
          [("A", ⟨"A", "shape", "a0", 1, none, none⟩)], [], "a0", "a0"⟩ :
            SurfaceState).minIdx) :=
  ⟨bounds_invariant_amended.1 [("A", ⟨"A", "shape", "a0", 1, none, none⟩)]
      ⟨[("A", ⟨"A", "shape", "a0", 1, none, none⟩)],
       [("A", ⟨"A", "shape", "a0", 1, none, none⟩)], [], "a0", "a0"⟩ rfl,
   bounds_invariant_amended.2 specKeyAfter
      ⟨[("A", ⟨"A", "shape", "a0", 1, none, none⟩),
        ("B", ⟨"B", "shape", "a1", 2, none, none⟩)],
       [("A", ⟨"A", "shape", "a0", 1, none, none⟩)], [], "a0", "a0"⟩
      "B" ⟨"B", "shape", "a1", 2, none, none⟩
      ⟨[("A", ⟨"A", "shape", "a0", 1, none, none⟩),
        ("B", ⟨"B", "shape", "a1", 2, none, none⟩)],
       [("A", ⟨"A", "shape", "a0", 1, none, none⟩),
        ("B", ⟨"B", "shape", "a1", 2, none, none⟩)], [], "a0", "a1"⟩
      (by unfold boundsInv; decide) rfl rfl (by decide) rfl⟩

/-- Witness for C9: caller supplies `id`, `index`, `seed` and `fill`; the
manager's generated values win and the caller's `fill` overrides the
default. -/
theorem addElement_manager_fields_win_witness :
    lookupLast (addElementProps [("fill", PropVal.str "black")]
      [("id", PropVal.str "EVIL"), ("index", PropVal.str "zz"),
       ("seed", PropVal.num 9), ("fill", PropVal.str "red")]
      "gen" "a0" 7 specKeyAfter) "id" = some (PropVal.str "gen") ∧
    lookupLast (addElementProps [("fill", PropVal.str "black")]
      [("id", PropVal.str "EVIL"), ("index", PropVal.str "zz"),
       ("seed", PropVal.num 9), ("fill", PropVal.str "red")]
      "gen" "a0" 7 specKeyAfter) "index" = some (PropVal.str "a0V") ∧
    lookupLast (addElementProps [("fill", PropVal.str "black")]
      [("id", PropVal.str "EVIL"), ("index", PropVal.str "zz"),
       ("seed", PropVal.num 9), ("fill", PropVal.str "red")]
      "gen" "a0" 7 specKeyAfter) "seed" = some (PropVal.num 7) ∧
    lookupLast (addElementProps [("fill", PropVal.str "black")]
      [("id", PropVal.str "EVIL"), ("index", PropVal.str "zz"),
       ("seed", PropVal.num 9), ("fill", PropVal.str "red")]
      "gen" "a0" 7 specKeyAfter) "fill" = some (PropVal.str "red") ∧
    (addElement specKeyAfter ⟨[], [], [], "a0", "a0"⟩
      ⟨"gen", "shape", 7, none, none⟩).2 = "gen" := by
  refine ⟨?_, ?_, ?_, ?_, ?_⟩
  · exact (addElement_manager_fields_win [("fill", PropVal.str "black")]
      [("id", PropVal.str "EVIL"), ("index", PropVal.str "zz"),
       ("seed", PropVal.num 9), ("fill", PropVal.str "red")]
      "gen" "a0" 7 specKeyAfter).1
  · exact (addElement_manager_fields_win [("fill", PropVal.str "black")]
      [("id", PropVal.str "EVIL"), ("index", PropVal.str "zz"),
       ("seed", PropVal.num 9), ("fill", PropVal.str "red")]
      "gen" "a0" 7 specKeyAfter).2.1
  · exact (addElement_manager_fields_win [("fill", PropVal.str "black")]
      [("id", PropVal.str "EVIL"), ("index", PropVal.str "zz"),
       ("seed", PropVal.num 9), ("fill", PropVal.str "red")]
      "gen" "a0" 7 specKeyAfter).2.2.1
  · exact ((addElement_manager_fields_win [("fill", PropVal.str "black")]
      [("id", PropVal.str "EVIL"), ("index", PropVal.str "zz"),
       ("seed", PropVal.num 9), ("fill", PropVal.str "red")]
      "gen" "a0" 7 specKeyAfter).2.2.2.1 "fill" (by decide) (by decide)
        (by decide)).trans rfl
  · exact ((addElement_manager_fields_win [("fill", PropVal.str "black")]
      [("id", PropVal.str "EVIL"), ("index", PropVal.str "zz"),
       ("seed", PropVal.num 9), ("fill", PropVal.str "red")]
      "gen" "a0" 7 specKeyAfter).2.2.2.2 specKeyAfter
      ⟨[], [], [], "a0", "a0"⟩ ⟨"gen", "shape", 7, none, none⟩).1

end ArtisanSurface
